import Mathlib

/-!
# poteto-lint: the rule catalog of `rules.go`

`rules.go` is a table of ruleguard rules.  Every rule is a chain
`m.Match(patterns...).Where(guard).Report(message).Suggest(fix).At(var)`.
This development embeds

* the syntax trees the patterns are written in (`Node`),
* the guard language (`Filter`, `Re`),
* the rule records themselves (`Rule`, one list per function of `rules.go`),
* the per-rule evaluation contract of the matching engine (`matchNode`,
  `evalFilter`, `evalRule`, `lint`),
* Go's fixed-width integer arithmetic for the comparisons the rules rewrite.
-/

namespace PotetoLint

/-! ## Syntax trees -/

/-- Syntax trees of the Go fragment the catalog's patterns are written in.
Patterns and analysed code share this type: `mvar` is a placeholder `$x`
and `mvarList` a variadic placeholder `$*xs`; analysed code contains neither. -/
inductive Node where
  | ident (name : String)
  | lit (text : String)
  | mvar (name : String)
  | mvarList (name : String)
  | paren (e : Node)
  | unary (op : String) (e : Node)
  | binary (op : String) (l r : Node)
  | sel (e : Node) (field : String)
  | call (fn : Node) (args : List Node)
  | sliceType (elem : Node)
  | mapType (key val : Node)
  | field (names : List String) (type : Node)
  | structType (fields : List Node)
  | exprStmt (e : Node)
  | deferStmt (call : Node)
  | assign (op : String) (lhs rhs : Node)
  | ret (results : List Node)
  | ifStmt (cond : Node) (body : List Node)
  | typeDecl (name : Node) (type : Node)
  | funcDecl (name : Node) (params results body : List Node)
  | seq (stmts : List Node)
  deriving Repr, Inhabited

/-- Joins strings with a separator. -/
def joinNames (sep : List Char) : List String → List Char
  | [] => []
  | [a] => a.data
  | a :: b :: rest => a.data ++ sep ++ joinNames sep (b :: rest)

/-- Puts braces around the text of a list of statements or fields (`{ a; b }`). -/
def braces (inner : List Char) : List Char :=
  if inner.isEmpty then ['\x7b', '\x7d'] else '\x7b' :: ' ' :: inner ++ [' ', '\x7d']

mutual
/-- Source text of a tree, in the layout the catalog's patterns are written in. -/
def render : Node → List Char
  | .ident a => a.data
  | .lit a => a.data
  | .mvar a => '$' :: a.data
  | .mvarList a => '$' :: '*' :: a.data
  | .paren e => '(' :: render e ++ [')']
  | .unary op e => op.data ++ render e
  | .binary op l r => render l ++ ' ' :: op.data ++ ' ' :: render r
  | .sel e f => render e ++ '.' :: f.data
  | .call fn args => render fn ++ '(' :: renderSep ", ".data args ++ [')']
  | .sliceType e => '[' :: ']' :: render e
  | .mapType k v => "map[".data ++ render k ++ ']' :: render v
  | .field ns ty => if ns.isEmpty then render ty else joinNames ", ".data ns ++ ' ' :: render ty
  | .structType fs => "struct ".data ++ braces (renderSep "; ".data fs)
  | .exprStmt e => render e
  | .deferStmt c => "defer ".data ++ render c
  | .assign op l r => render l ++ ' ' :: op.data ++ ' ' :: render r
  | .ret rs => if rs.isEmpty then "return".data else "return ".data ++ renderSep ", ".data rs
  | .ifStmt c body => "if ".data ++ render c ++ ' ' :: braces (renderSep "; ".data body)
  | .typeDecl n ty => "type ".data ++ render n ++ ' ' :: render ty
  | .funcDecl n ps rs body =>
      "func ".data ++ render n ++ '(' :: renderSep ", ".data ps ++ ')' ::
        (if rs.isEmpty then []
         else if rs.length = 1 then ' ' :: renderSep ", ".data rs
         else ' ' :: '(' :: renderSep ", ".data rs ++ [')'])
        ++ ' ' :: braces (renderSep "; ".data body)
  | .seq ss => renderSep "; ".data ss
/-- Source text of a list of trees, separated by `sep`. -/
def renderSep (sep : List Char) : List Node → List Char
  | [] => []
  | a :: rest => if rest.isEmpty then render a else render a ++ sep ++ renderSep sep rest
end

/-- The text of a node, as a string. -/
def Node.text (n : Node) : String := String.mk (render n)

mutual
/-- Structural equality of syntax trees. -/
def Node.same : Node → Node → Bool
  | .ident a, .ident b => a == b
  | .lit a, .lit b => a == b
  | .mvar a, .mvar b => a == b
  | .mvarList a, .mvarList b => a == b
  | .paren a, .paren b => Node.same a b
  | .unary o a, .unary o2 b => o == o2 && Node.same a b
  | .binary o l r, .binary o2 l2 r2 => o == o2 && Node.same l l2 && Node.same r r2
  | .sel e f, .sel e2 f2 => Node.same e e2 && f == f2
  | .call f as, .call g bs => Node.same f g && Node.sameList as bs
  | .sliceType a, .sliceType b => Node.same a b
  | .mapType k v, .mapType k2 v2 => Node.same k k2 && Node.same v v2
  | .field ns t, .field ns2 t2 => ns == ns2 && Node.same t t2
  | .structType fs, .structType gs => Node.sameList fs gs
  | .exprStmt a, .exprStmt b => Node.same a b
  | .deferStmt a, .deferStmt b => Node.same a b
  | .assign o l r, .assign o2 l2 r2 => o == o2 && Node.same l l2 && Node.same r r2
  | .ret as, .ret bs => Node.sameList as bs
  | .ifStmt c b, .ifStmt c2 b2 => Node.same c c2 && Node.sameList b b2
  | .typeDecl n t, .typeDecl n2 t2 => Node.same n n2 && Node.same t t2
  | .funcDecl n p r b, .funcDecl n2 p2 r2 b2 =>
      Node.same n n2 && Node.sameList p p2 && Node.sameList r r2 && Node.sameList b b2
  | .seq as, .seq bs => Node.sameList as bs
  | _, _ => false
/-- Structural equality of lists of syntax trees. -/
def Node.sameList : List Node → List Node → Bool
  | [], [] => true
  | a :: as, b :: bs => Node.same a b && Node.sameList as bs
  | _, _ => false
end

/-! ## Bindings and structural matching -/

/-- What a placeholder captured: one node (`$x`) or a run of nodes (`$*xs`). -/
inductive Capture where
  | one (n : Node)
  | many (ns : List Node)
  deriving Repr, Inhabited

/-- The binding set of a match, most recent binding first. -/
abbrev Bindings := List (String × Capture)

/-- The single node bound to a placeholder, if any. -/
def lookupOne (b : Bindings) (v : String) : Option Node :=
  match b.lookup v with
  | some (.one n) => some n
  | _ => none

/-- Binds `$v` to a node.  `$_` never binds; a repeated placeholder must
capture a structurally identical node. -/
def bindOne (v : String) (t : Node) (b : Bindings) : Option Bindings :=
  if v = "_" then some b
  else match b.lookup v with
    | none => some ((v, .one t) :: b)
    | some (.one t0) => if Node.same t0 t then some b else none
    | some (.many _) => none

/-- Binds `$*v` to a run of nodes. -/
def bindMany (v : String) (ts : List Node) (b : Bindings) : Option Bindings :=
  if v = "_" then some b
  else match b.lookup v with
    | none => some ((v, .many ts) :: b)
    | some (.many ts0) => if Node.sameList ts0 ts then some b else none
    | some (.one _) => none

mutual
/-- Modelled from the spec: the structural matching of the external matching
engine (a placeholder matches any node, repeated placeholders must bind
structurally identical nodes, everything else must agree literally). -/
def matchNode : Node → Node → Bindings → Option Bindings
  | .mvar v, t, b => bindOne v t b
  | .mvarList _, _, _ => none
  | .ident a, .ident a2, b => if a = a2 then some b else none
  | .lit a, .lit a2, b => if a = a2 then some b else none
  | .paren p, .paren t, b => matchNode p t b
  | .unary o p, .unary o2 t, b => if o = o2 then matchNode p t b else none
  | .binary o pl pr, .binary o2 tl tr, b =>
      if o = o2 then (matchNode pl tl b).bind (matchNode pr tr) else none
  | .sel p f, .sel t f2, b => if f = f2 then matchNode p t b else none
  | .call pf pas, .call tf tas, b => (matchNode pf tf b).bind (matchList pas tas)
  | .sliceType p, .sliceType t, b => matchNode p t b
  | .mapType pk pv, .mapType tk tv, b => (matchNode pk tk b).bind (matchNode pv tv)
  | .field ns p, .field ns2 t, b => if ns = ns2 then matchNode p t b else none
  | .structType pfs, .structType tfs, b => matchList pfs tfs b
  | .exprStmt p, .exprStmt t, b => matchNode p t b
  | .deferStmt p, .deferStmt t, b => matchNode p t b
  | .assign o pl pr, .assign o2 tl tr, b =>
      if o = o2 then (matchNode pl tl b).bind (matchNode pr tr) else none
  | .ret ps, .ret ts, b => matchList ps ts b
  | .ifStmt pc pb, .ifStmt tc tb, b => (matchNode pc tc b).bind (matchList pb tb)
  | .typeDecl pn pt, .typeDecl tn tt, b => (matchNode pn tn b).bind (matchNode pt tt)
  | .funcDecl pn pp pr pb, .funcDecl tn tp tr tb, b =>
      (((matchNode pn tn b).bind (matchList pp tp)).bind (matchList pr tr)).bind (matchList pb tb)
  | .seq ps, .seq ts, b => matchList ps ts b
  | _, _, _ => none
/-- Matching of a list of patterns against a list of nodes; a variadic
placeholder takes the shortest run of nodes that lets the rest match. -/
def matchList : List Node → List Node → Bindings → Option Bindings
  | [], [], b => some b
  | [], _ :: _, _ => none
  | .mvarList v :: ps, ts, b =>
      (List.range (ts.length + 1)).findSome? fun k =>
        (bindMany v (ts.take k) b).bind (matchList ps (ts.drop k))
  | _ :: _, [], _ => none
  | p :: ps, t :: ts, b => (matchNode p t b).bind (matchList ps ts)
end

/-! ## Guards -/

/-- Regular expressions of the guards (the RE2 fragment the catalog uses).
`fail` matches nothing; it only arises while matching. -/
inductive Re where
  | fail
  | bol
  | any
  | str (s : List Char)
  | cls (name : String)
  | alt (a b : Re)
  | group (r : Re)
  | seq (a b : Re)
  | star (r : Re)
  deriving Repr, Inhabited

/-- Source text of a regular expression. -/
def Re.src : Re → List Char
  | .fail => "[^\\x00-\\x\x7b10FFFF\x7d]".data
  | .bol => ['^']
  | .any => ['.']
  | .str s => s
  | .cls n => "\\p\x7b".data ++ n.data ++ ['\x7d']
  | .alt a b => a.src ++ '|' :: b.src
  | .group r => '(' :: r.src ++ [')']
  | .seq a b => a.src ++ b.src
  | .star r => r.src ++ ['*']

/-- Whether the expression matches the empty string; `start` says whether
we are at the beginning of the text. -/
def Re.nullable (start : Bool) : Re → Bool
  | .fail => false
  | .bol => start
  | .any => false
  | .str s => s.isEmpty
  | .cls _ => false
  | .alt a b => a.nullable start || b.nullable start
  | .group r => r.nullable start
  | .seq a b => a.nullable start && b.nullable start
  | .star _ => true

/-- The expression that matches what is left after reading the character `c`.
`classes` interprets the Unicode classes (`\p{Lu}`). -/
def Re.deriv (classes : String → Char → Bool) (start : Bool) : Re → Char → Re
  | .fail, _ => .fail
  | .bol, _ => .fail
  | .any, c => if c = '\n' then .fail else .str []
  | .str [], _ => .fail
  | .str (a :: s), c => if a = c then .str s else .fail
  | .cls n, c => if classes n c then .str [] else .fail
  | .alt a b, c => .alt (a.deriv classes start c) (b.deriv classes start c)
  | .group r, c => r.deriv classes start c
  | .seq a b, c =>
      if a.nullable start then .alt (.seq (a.deriv classes start c) b) (b.deriv classes start c)
      else .seq (a.deriv classes start c) b
  | .star r, c => .seq (r.deriv classes start c) (.star r)

/-- Whether the expression matches some leading part of the text. -/
def Re.accepts (classes : String → Char → Bool) : Bool → Re → List Char → Bool
  | start, r, [] => r.nullable start
  | start, r, c :: cs => r.nullable start || Re.accepts classes false (r.deriv classes start c) cs

/-- Go's `MatchString`: whether the text contains a match of the expression. -/
def Re.search (classes : String → Char → Bool) : Bool → Re → List Char → Bool
  | start, r, [] => r.nullable start
  | start, r, c :: cs => Re.accepts classes start r (c :: cs) || Re.search classes false r cs

/-- The guard language of the rule DSL: the conditions `Where` is given. -/
inductive Filter where
  | always
  | not (f : Filter)
  | textMatches (v : String) (re : Re)
  | typeIs (v : String) (ty : String)
  | typeUnderlyingIs (v : String) (ty : String)
  | textEq (v1 v2 : String)
  deriving Repr, Inhabited

/-- A static type as the engine reports it: its own spelling and the
spelling of its underlying type. -/
structure GoType where
  name : String
  underlying : String
  deriving Repr, DecidableEq, Inhabited

/-- Modelled from the spec: what the external matching engine supplies
besides the tree: static types of nodes (absent when unknown) and the
Unicode class tables of its regular-expression library. -/
structure Engine where
  typeOf : Node → Option GoType
  classes : String → Char → Bool

/-- Modelled from the spec: evaluation of a guard over a binding set.  A guard
that cannot be evaluated (unbound placeholder, missing type) yields `none`,
which the engine treats as a non-match. -/
def evalFilter (E : Engine) (b : Bindings) : Filter → Option Bool
  | .always => some true
  | .not f => (evalFilter E b f).map (!·)
  | .textMatches v re => (lookupOne b v).map fun n => re.search E.classes true (render n)
  | .typeIs v ty => ((lookupOne b v).bind E.typeOf).map fun t => t.name == ty
  | .typeUnderlyingIs v ty => ((lookupOne b v).bind E.typeOf).map fun t => t.underlying == ty
  | .textEq v1 v2 =>
      (lookupOne b v1).bind fun n1 => (lookupOne b v2).map fun n2 => n1.text == n2.text

/-- Placeholders a guard refers to. -/
def Filter.vars : Filter → List String
  | .always => []
  | .not f => f.vars
  | .textMatches v _ => [v]
  | .typeIs v _ => [v]
  | .typeUnderlyingIs v _ => [v]
  | .textEq v1 v2 => [v1, v2]

/-! ## Templates -/

/-- A piece of a template: a literal character or a placeholder reference. -/
inductive Seg where
  | chr (c : Char)
  | ref (name : List Char)
  deriving Repr, DecidableEq, Inhabited

/-- Characters a placeholder name is made of. -/
def isNameChar (c : Char) : Bool := c.isAlphanum || c == '_'

/-- Splits a template into literal characters and placeholder references.
`cur` holds the (reversed) name being read after a `$`; a `*` right after
the `$` marks a variadic placeholder and is not part of the name. -/
def segments : Option (List Char) → List Char → List Seg
  | none, [] => []
  | some n, [] => [.ref n.reverse]
  | none, c :: cs => if c = '$' then segments (some []) cs else .chr c :: segments none cs
  | some n, c :: cs =>
      if isNameChar c then segments (some (c :: n)) cs
      else if c = '*' && n.isEmpty then segments (some n) cs
      else if c = '$' then .ref n.reverse :: segments (some []) cs
      else .ref n.reverse :: .chr c :: segments none cs

/-- The named placeholders of a pattern or template text (`$_` is anonymous). -/
def placeholders (s : String) : List String :=
  (segments none s.data).filterMap fun
    | .ref n => if n = ['_'] then none else some (String.mk n)
    | .chr _ => none

/-- Expands the segments of a template with the text of the bound nodes. -/
def expandSegs (b : Bindings) : List Seg → Option (List Char)
  | [] => some []
  | .chr c :: rest => (expandSegs b rest).map (c :: ·)
  | .ref n :: rest =>
      (lookupOne b (String.mk n)).bind fun t => (expandSegs b rest).map (render t ++ ·)

/-- Modelled from the spec: template expansion, the placeholders of a message
or suggestion replaced by the text of the captured sub-expressions. -/
def expand (b : Bindings) (s : String) : Option String :=
  (expandSegs b (segments none s.data)).map String.mk

mutual
/-- The tree a template denotes once its placeholders are replaced by the
captured sub-trees. -/
def instantiate (b : Bindings) : Node → Option Node
  | .ident a => some (.ident a)
  | .lit a => some (.lit a)
  | .mvar v => lookupOne b v
  | .mvarList _ => none
  | .paren e => (instantiate b e).map .paren
  | .unary o e => (instantiate b e).map (.unary o)
  | .binary o l r => (instantiate b l).bind fun l2 => (instantiate b r).map (.binary o l2)
  | .sel e f => (instantiate b e).map (.sel · f)
  | .call f as => (instantiate b f).bind fun f2 => (instantiateList b as).map (.call f2)
  | .sliceType e => (instantiate b e).map .sliceType
  | .mapType k v => (instantiate b k).bind fun k2 => (instantiate b v).map (.mapType k2)
  | .field ns t => (instantiate b t).map (.field ns)
  | .structType fs => (instantiateList b fs).map .structType
  | .exprStmt e => (instantiate b e).map .exprStmt
  | .deferStmt e => (instantiate b e).map .deferStmt
  | .assign o l r => (instantiate b l).bind fun l2 => (instantiate b r).map (.assign o l2)
  | .ret rs => (instantiateList b rs).map .ret
  | .ifStmt c body =>
      (instantiate b c).bind fun c2 => (instantiateList b body).map (.ifStmt c2)
  | .typeDecl n t => (instantiate b n).bind fun n2 => (instantiate b t).map (.typeDecl n2)
  | .funcDecl n ps rs body =>
      (instantiate b n).bind fun n2 => (instantiateList b ps).bind fun ps2 =>
        (instantiateList b rs).bind fun rs2 => (instantiateList b body).map (.funcDecl n2 ps2 rs2)
  | .seq ss => (instantiateList b ss).map .seq
/-- Instantiation of a list of template trees; a variadic placeholder is
replaced by the run of nodes it captured. -/
def instantiateList (b : Bindings) : List Node → Option (List Node)
  | [] => some []
  | .mvarList v :: rest =>
      match b.lookup v with
      | some (.many ts) => (instantiateList b rest).map (ts ++ ·)
      | _ => none
  | t :: rest => (instantiate b t).bind fun t2 => (instantiateList b rest).map (t2 :: ·)
end

/-! ## Rules and their evaluation -/

/-- A pattern or a suggestion: the text written in `rules.go` and the tree
it denotes. -/
structure Pattern where
  src : String
  tree : Node
  deriving Repr, Inhabited

/-- One rule of `rules.go`: `m.Match(...).Where(...).Report(...).Suggest(...).At(...)`. -/
structure Rule where
  Match : List Pattern
  Where : Filter
  Report : String
  Suggest : Option Pattern
  At : Option String
  deriving Repr, Inhabited

/-- Diagnostic emitted for one match: the message, the optional
machine-applicable suggestion and the node the diagnostic is anchored at. -/
structure Diagnostic where
  message : String
  suggestion : Option String
  anchor : Node
  deriving Repr, Inhabited

/-- Bindings of the first pattern of the rule that matches the node
structurally. -/
def firstMatch (r : Rule) (t : Node) : Option Bindings :=
  r.Match.findSome? fun p => matchNode p.tree t []

/-- The diagnostic of a rule for a binding set: the expanded message, the
expanded suggestion when the rule has one, and the location override
(default: the matched node). -/
def diagnose (r : Rule) (t : Node) (b : Bindings) : Option Diagnostic :=
  (expand b r.Report).bind fun msg =>
    (match r.Suggest with
      | none => some none
      | some s => (expand b s.src).map some).bind fun sug =>
    (match r.At with
      | none => some t
      | some v => lookupOne b v).map fun loc =>
    { message := msg, suggestion := sug, anchor := loc }

/-- A structural match of a rule at a node, before its guard is evaluated:
the guard, the binding set, the diagnostic to emit and the snippet the
suggestion rewrites the node to. -/
structure Occurrence where
  guard : Filter
  bindings : Bindings
  diagnostic : Option Diagnostic
  fix : Option Node
  deriving Repr, Inhabited

/-- The occurrence of a rule at a node, if one of its patterns matches. -/
def occurrence (r : Rule) (t : Node) : Option Occurrence :=
  (firstMatch r t).map fun b =>
    { guard := r.Where
      bindings := b
      diagnostic := diagnose r t b
      fix := r.Suggest.bind fun s => instantiate b s.tree }

/-- Whether the guard of an occurrence holds. -/
def Occurrence.passes (E : Engine) (o : Occurrence) : Bool :=
  evalFilter E o.bindings o.guard == some true

/-- The diagnostic of an occurrence, emitted when its guard holds. -/
def Occurrence.emit (E : Engine) (o : Occurrence) : Option Diagnostic :=
  if o.passes E then o.diagnostic else none

/-- Modelled from the spec: the per-rule evaluation contract of the external
engine.  The first pattern that matches structurally gives the binding set;
if the guard holds, the diagnostic is emitted. -/
def evalRule (E : Engine) (r : Rule) (t : Node) : Option Diagnostic :=
  (occurrence r t).bind fun o => o.emit E

/-- The snippet a rule's suggestion rewrites the node to, when the rule
fires on it and has a suggestion. -/
def rewrite (E : Engine) (r : Rule) (t : Node) : Option Node :=
  (occurrence r t).bind fun o => if o.passes E then o.fix else none

/-- Non-empty leading runs of a list. -/
def leadingRuns : List Node → List (List Node)
  | [] => []
  | a :: rest => [a] :: (leadingRuns rest).map (a :: ·)

/-- All runs of adjacent statements of a statement list. -/
def windows : List Node → List (List Node)
  | [] => []
  | a :: rest => leadingRuns (a :: rest) ++ windows rest

/-- What the rules are tried against at a node: the node itself, or, for a
statement list, every run of adjacent statements. -/
def candidates : Node → List Node
  | .seq ss => (windows ss).map .seq
  | t => [t]

/-- All structural matches of a list of rules at a node. -/
def occurrences (rules : List Rule) (t : Node) : List Occurrence :=
  (candidates t).flatMap fun c => rules.filterMap fun r => occurrence r c

/-- All diagnostics a list of rules emits at a node. -/
def lint (E : Engine) (rules : List Rule) (t : Node) : List Diagnostic :=
  (occurrences rules t).filterMap fun o => o.emit E

/-! ## The catalog of `rules.go` -/

/-- The pattern `$l op $r`. -/
def binPat (l op r : String) : Node := .binary op (.mvar l) (.mvar r)

/-- The pattern `$x - $y op 0` (and `$x ^ $y op 0`). -/
def zeroCmp (arith cmp : String) : Node :=
  .binary cmp (.binary arith (.mvar "x") (.mvar "y")) (.lit "0")

/-- The statement pattern `$v.method()`. -/
def lockCall (v method : String) : Node := .call (.sel (.mvar v) method) []

/-- The regular expression `^(Is|is|Has|has).*`. -/
def boolNameRe : Re :=
  .seq .bol (.seq
    (.group (.alt (.str "Is".data) (.alt (.str "is".data) (.alt (.str "Has".data) (.str "has".data)))))
    (.star .any))

/-- The regular expression `^\p{Lu}` of `isExported`. -/
def exportedRe : Re := .seq .bol (.cls "Lu")

/-- The guard `isExported` of `exposedMutex`: the text of the placeholder
starts with an upper-case letter. -/
def isExported (v : String) : Filter := .textMatches v exportedRe

/-- The rule of `boolFunctionNaming`. -/
def boolFunctionNaming.rule : Rule :=
  { Match := [⟨"func $name($*params) bool \x7b $*body \x7d",
      .funcDecl (.mvar "name") [.mvarList "params"] [.ident "bool"] [.mvarList "body"]⟩]
    Where := .not (.textMatches "name" boolNameRe)
    Report := "bool function name should start with \x27Is\x27 | \x27is\x27 | \x27Has\x27 | \x27has\x27"
    Suggest := none
    At := none }

/-- Rules of `boolFunctionNaming`. -/
def boolFunctionNaming : List Rule := [boolFunctionNaming.rule]

/-- First rule of `boolExprSimplify`: `!($x != $y)`. -/
def boolExprSimplify.notNe : Rule :=
  { Match := [⟨"!($x != $y)", .unary "!" (.paren (binPat "x" "!=" "y"))⟩]
    Where := .always
    Report := "$x == $y"
    Suggest := none
    At := none }

/-- Second rule of `boolExprSimplify`: `!($x == $y)`. -/
def boolExprSimplify.notEq : Rule :=
  { Match := [⟨"!($x == $y)", .unary "!" (.paren (binPat "x" "==" "y"))⟩]
    Where := .always
    Report := "$x != $y"
    Suggest := none
    At := none }

/-- Rules of `boolExprSimplify`. -/
def boolExprSimplify : List Rule := [boolExprSimplify.notNe, boolExprSimplify.notEq]

/-- The pattern `type $name struct { $*_; sync.T; $*_ }`. -/
def embeds (t : String) : Node :=
  .typeDecl (.mvar "name")
    (.structType [.mvarList "_", .field [] (.sel (.ident "sync") t), .mvarList "_"])

/-- Rules of `exposedMutex`. -/
def exposedMutex : List Rule :=
  [ { Match := [⟨"type $name struct \x7b $*_; sync.Mutex; $*_ \x7d", embeds "Mutex"⟩]
      Where := isExported "name"
      Report := "do not embed sync.Mutex"
      Suggest := none
      At := none },
    { Match := [⟨"type $name struct \x7b $*_; sync.RWMutex; $*_ \x7d", embeds "RWMutex"⟩]
      Where := isExported "name"
      Report := "do not embed sync.RWMutex"
      Suggest := none
      At := none } ]

/-- The rule of `timeEqual` for `$t0 == $t1`. -/
def timeEqual.eq : Rule :=
  { Match := [⟨"$t0 == $t1", binPat "t0" "==" "t1"⟩]
    Where := .typeIs "t0" "time.Time"
    Report := "using == with time.Time"
    Suggest := none
    At := none }

/-- The rule of `timeEqual` for `$t0 != $t1`. -/
def timeEqual.ne : Rule :=
  { Match := [⟨"$t0 != $t1", binPat "t0" "!=" "t1"⟩]
    Where := .typeIs "t0" "time.Time"
    Report := "using != with time.Time"
    Suggest := none
    At := none }

/-- The rule of `timeEqual` for `map[$k]$v`. -/
def timeEqual.mapKey : Rule :=
  { Match := [⟨"map[$k]$v", .mapType (.mvar "k") (.mvar "v")⟩]
    Where := .typeIs "k" "time.Time"
    Report := "map with time.Time keys are easy to misuse"
    Suggest := none
    At := none }

/-- Rules of `timeEqual`. -/
def timeEqual : List Rule := [timeEqual.eq, timeEqual.ne, timeEqual.mapKey]

/-- The pattern `$x op= $x arith $_`. -/
def selfAssign (op arith : String) : Node :=
  .assign op (.mvar "x") (.binary arith (.mvar "x") (.mvar "_"))

/-- Rules of `oddCompoundOp`. -/
def oddCompoundOp : List Rule :=
  [ { Match := [⟨"$x += $x + $_", selfAssign "+=" "+"⟩, ⟨"$x += $x - $_", selfAssign "+=" "-"⟩]
      Where := .always
      Report := "odd += expression"
      Suggest := none
      At := none },
    { Match := [⟨"$x -= $x + $_", selfAssign "-=" "+"⟩, ⟨"$x -= $x - $_", selfAssign "-=" "-"⟩]
      Where := .always
      Report := "odd -= expression"
      Suggest := none
      At := none },
    { Match := [⟨"$x *= $x * $_", selfAssign "*=" "*"⟩, ⟨"$x *= $x / $_", selfAssign "*=" "/"⟩]
      Where := .always
      Report := "odd *= expression"
      Suggest := none
      At := none },
    { Match := [⟨"$x /= $x * $_", selfAssign "/=" "*"⟩, ⟨"$x /= $x / $_", selfAssign "/=" "/"⟩]
      Where := .always
      Report := "odd /= expression"
      Suggest := none
      At := none } ]

/-- One rule of `oddComparisons`: a pattern, the message "odd comparison"
and a suggestion. -/
def oddRule (pat : Pattern) (fix : Pattern) : Rule :=
  { Match := [pat], Where := .always, Report := "odd comparison", Suggest := some fix, At := none }

/-- The rule of `oddComparisons` for `$x - $y == 0`. -/
def oddComparisons.subEq : Rule :=
  oddRule ⟨"$x - $y == 0", zeroCmp "-" "=="⟩ ⟨"$x == $y", binPat "x" "==" "y"⟩

/-- The rule of `oddComparisons` for `$x - $y != 0`. -/
def oddComparisons.subNe : Rule :=
  oddRule ⟨"$x - $y != 0", zeroCmp "-" "!="⟩ ⟨"$x != $y", binPat "x" "!=" "y"⟩

/-- The rule of `oddComparisons` for `$x - $y < 0`. -/
def oddComparisons.subLt : Rule :=
  oddRule ⟨"$x - $y < 0", zeroCmp "-" "<"⟩ ⟨"$y > $x", binPat "y" ">" "x"⟩

/-- The rule of `oddComparisons` for `$x - $y <= 0`. -/
def oddComparisons.subLe : Rule :=
  oddRule ⟨"$x - $y <= 0", zeroCmp "-" "<="⟩ ⟨"$y >= $x", binPat "y" ">=" "x"⟩

/-- The rule of `oddComparisons` for `$x - $y > 0`. -/
def oddComparisons.subGt : Rule :=
  oddRule ⟨"$x - $y > 0", zeroCmp "-" ">"⟩ ⟨"$x > $y", binPat "x" ">" "y"⟩

/-- The rule of `oddComparisons` for `$x - $y >= 0`. -/
def oddComparisons.subGe : Rule :=
  oddRule ⟨"$x - $y >= 0", zeroCmp "-" ">="⟩ ⟨"$x >= $y", binPat "x" ">=" "y"⟩

/-- The rule of `oddComparisons` for `$x ^ $y == 0`. -/
def oddComparisons.xorEq : Rule :=
  oddRule ⟨"$x ^ $y == 0", zeroCmp "^" "=="⟩ ⟨"$x == $y", binPat "x" "==" "y"⟩

/-- The rule of `oddComparisons` for `$x ^ $y != 0`. -/
def oddComparisons.xorNe : Rule :=
  oddRule ⟨"$x ^ $y != 0", zeroCmp "^" "!="⟩ ⟨"$x != $y", binPat "x" "!=" "y"⟩

/-- Rules of `oddComparisons`. -/
def oddComparisons : List Rule :=
  [ oddComparisons.subEq, oddComparisons.subNe, oddComparisons.subLt, oddComparisons.subLe,
    oddComparisons.subGt, oddComparisons.subGe, oddComparisons.xorEq, oddComparisons.xorNe ]

/-- The call `fmt.f(args)`. -/
def fmtCall (f : String) (args : List Node) : Node := .call (.sel (.ident "fmt") f) args

/-- Rules of `sprintErr`. -/
def sprintErr : List Rule :=
  [ { Match :=
        [⟨"fmt.Sprint($err)", fmtCall "Sprint" [.mvar "err"]⟩,
         ⟨"fmt.Sprintf(\"%s\", $err)", fmtCall "Sprintf" [.lit "\"%s\"", .mvar "err"]⟩,
         ⟨"fmt.Sprintf(\"%v\", $err)", fmtCall "Sprintf" [.lit "\"%v\"", .mvar "err"]⟩]
      Where := .typeIs "err" "error"
      Report := "maybe call $err.Error() instead of fmt.Sprint()?"
      Suggest := none
      At := none } ]

/-- The condition `err == nil`. -/
def errIsNil : Node := .binary "==" (.ident "err") (.ident "nil")

/-- Rules of `nilErr`. -/
def nilErr : List Rule :=
  [ { Match :=
        [⟨"if err == nil \x7b return err \x7d", .ifStmt errIsNil [.ret [.ident "err"]]⟩,
         ⟨"if err == nil \x7b return $*_, err \x7d",
          .ifStmt errIsNil [.ret [.mvarList "_", .ident "err"]]⟩]
      Where := .always
      Report := "return nil error instead of nil value"
      Suggest := none
      At := none } ]

/-- The call `len(e)`. -/
def lenOf (e : Node) : Node := .call (.ident "len") [e]

/-- The rule of `lenStrByteSlice`. -/
def lenStrByteSlice.rule : Rule :=
  { Match := [⟨"len(string($b))", lenOf (.call (.ident "string") [.mvar "b"])⟩]
    Where := .typeUnderlyingIs "b" "[]byte"
    Report := "Call len() on the byte slice instead of converting to a string first"
    Suggest := some ⟨"len($b)", lenOf (.mvar "b")⟩
    At := none }

/-- Rules of `lenStrByteSlice`. -/
def lenStrByteSlice : List Rule := [lenStrByteSlice.rule]

/-- The rule of `lenByteSliceStr`. -/
def lenByteSliceStr.rule : Rule :=
  { Match := [⟨"len([]byte($s))", lenOf (.call (.sliceType (.ident "byte")) [.mvar "s"])⟩]
    Where := .typeUnderlyingIs "s" "string"
    Report := "Call len() on the string instead of converting to []byte first."
    Suggest := some ⟨"len($s)", lenOf (.mvar "s")⟩
    At := none }

/-- Rules of `lenByteSliceStr`. -/
def lenByteSliceStr : List Rule := [lenByteSliceStr.rule]

/-- One rule of `badLock`: two adjacent statements on `$mu1` and `$mu2`,
guarded by the identity of their texts and reported at `$mu2`. -/
def lockRule (src : String) (first second : Node) (msg : String) : Rule :=
  { Match := [⟨src, .seq [first, second]⟩]
    Where := .textEq "mu1" "mu2"
    Report := msg
    Suggest := none
    At := some "mu2" }

/-- The rule of `badLock` for `$mu1.Lock(); $mu2.Unlock()`. -/
def badLock.lockUnlock : Rule :=
  lockRule "$mu1.Lock(); $mu2.Unlock()"
    (.exprStmt (lockCall "mu1" "Lock")) (.exprStmt (lockCall "mu2" "Unlock"))
    "defer is missing, mutex is unlocked immediately"

/-- The rule of `badLock` for `$mu1.RLock(); $mu2.RUnlock()`. -/
def badLock.rlockRUnlock : Rule :=
  lockRule "$mu1.RLock(); $mu2.RUnlock()"
    (.exprStmt (lockCall "mu1" "RLock")) (.exprStmt (lockCall "mu2" "RUnlock"))
    "defer is missing, mutex is unlocked immediately"

/-- The rule of `badLock` for `$mu1.Lock(); defer $mu2.RUnlock()`. -/
def badLock.lockDeferRUnlock : Rule :=
  lockRule "$mu1.Lock(); defer $mu2.RUnlock()"
    (.exprStmt (lockCall "mu1" "Lock")) (.deferStmt (lockCall "mu2" "RUnlock"))
    "suspicious unlock, maybe Unlock was intended?"

/-- The rule of `badLock` for `$mu1.RLock(); defer $mu2.Unlock()`. -/
def badLock.rlockDeferUnlock : Rule :=
  lockRule "$mu1.RLock(); defer $mu2.Unlock()"
    (.exprStmt (lockCall "mu1" "RLock")) (.deferStmt (lockCall "mu2" "Unlock"))
    "suspicious unlock, maybe RUnlock was intended?"

/-- The rule of `badLock` for `$mu1.Lock(); defer $mu2.Lock()`. -/
def badLock.lockDeferLock : Rule :=
  lockRule "$mu1.Lock(); defer $mu2.Lock()"
    (.exprStmt (lockCall "mu1" "Lock")) (.deferStmt (lockCall "mu2" "Lock"))
    "maybe defer $mu1.Unlock() was intended?"

/-- The rule of `badLock` for `$mu1.RLock(); defer $mu2.RLock()`. -/
def badLock.rlockDeferRLock : Rule :=
  lockRule "$mu1.RLock(); defer $mu2.RLock()"
    (.exprStmt (lockCall "mu1" "RLock")) (.deferStmt (lockCall "mu2" "RLock"))
    "maybe defer $mu1.RUnlock() was intended?"

/-- Rules of `badLock`. -/
def badLock : List Rule :=
  [ badLock.lockUnlock, badLock.rlockRUnlock, badLock.lockDeferRUnlock,
    badLock.rlockDeferUnlock, badLock.lockDeferLock, badLock.rlockDeferRLock ]

/-- The whole catalog, in the order of `rules.go`. -/
def rules : List Rule :=
  boolFunctionNaming ++ boolExprSimplify ++ exposedMutex ++ timeEqual ++ oddCompoundOp
    ++ oddComparisons ++ sprintErr ++ nilErr ++ lenStrByteSlice ++ lenByteSliceStr ++ badLock

/-- Whether the tree of a pattern is the tree of its text. -/
def Pattern.faithful (p : Pattern) : Bool := p.tree.text == p.src

/-- Placeholders a rule refers to outside its patterns: in the guard, the
message, the suggestion and the location override. -/
def Rule.referenced (r : Rule) : List String :=
  r.Where.vars ++ placeholders r.Report
    ++ (match r.Suggest with | none => [] | some s => placeholders s.src)
    ++ (match r.At with | none => [] | some v => [v])

/-- Whether every placeholder the rule refers to occurs in each of its patterns. -/
def Rule.wellFormed (r : Rule) : Bool :=
  r.referenced.all fun v => r.Match.all fun p => (placeholders p.src).contains v

/-! ## Go's fixed-width integers -/

/-- An integer type of Go: its width in bits and whether it is signed. -/
structure IntType where
  bits : Nat
  signed : Bool
  deriving Repr, DecidableEq, Inhabited

/-- Number of bit patterns of the type, `2 ^ bits`. -/
def IntType.modulus (k : IntType) : Nat := 2 ^ k.bits

/-- The integer a bit pattern denotes: itself for an unsigned type, its
two's-complement reading for a signed one. -/
def IntType.value (k : IntType) (p : Nat) : Int :=
  if k.signed && decide (k.modulus ≤ 2 * (p % k.modulus)) then
    ((p % k.modulus : Nat) : Int) - (k.modulus : Int)
  else ((p % k.modulus : Nat) : Int)

/-- Whether an integer is a value of the type. -/
def IntType.represents (k : IntType) (z : Int) : Prop :=
  if k.signed then -(k.modulus : Int) ≤ 2 * z ∧ 2 * z < (k.modulus : Int)
  else 0 ≤ z ∧ z < (k.modulus : Int)

instance (k : IntType) (z : Int) : Decidable (k.represents z) := by
  unfold IntType.represents
  exact inferInstance

/-- Go's `x - y` on bit patterns: the difference modulo `2 ^ bits`. -/
def goSub (k : IntType) (x y : Nat) : Nat := (x + (k.modulus - y % k.modulus)) % k.modulus

/-- Go's `x + y` on bit patterns: the sum modulo `2 ^ bits`. -/
def goAdd (k : IntType) (x y : Nat) : Nat := (x + y) % k.modulus

/-- Go's `x ^ y` on bit patterns. -/
def goXor (k : IntType) (x y : Nat) : Nat := (x ^^^ y) % k.modulus

/-- Go's comparison operators on bit patterns of the type. -/
def goCompare (k : IntType) (op : String) (a b : Nat) : Option Bool :=
  if op = "==" then some (decide (a = b))
  else if op = "!=" then some (decide (a ≠ b))
  else if op = "<" then some (decide (k.value a < k.value b))
  else if op = "<=" then some (decide (k.value a ≤ k.value b))
  else if op = ">" then some (decide (k.value a > k.value b))
  else if op = ">=" then some (decide (k.value a ≥ k.value b))
  else none

/-- Value of a decimal literal. -/
def parseDec (cs : List Char) : Option Nat :=
  if cs.isEmpty then none
  else cs.foldl (fun acc c =>
    acc.bind fun n => if c.isDigit then some (10 * n + (c.toNat - 48)) else none) (some 0)

/-- Value (a bit pattern) of an integer expression of type `k`; `env` gives
the values of the variables. -/
def evalInt (k : IntType) (env : String → Nat) : Node → Option Nat
  | .ident n => some (env n % k.modulus)
  | .lit s => (parseDec s.data).map (· % k.modulus)
  | .paren e => evalInt k env e
  | .binary op l r =>
      (evalInt k env l).bind fun a => (evalInt k env r).bind fun b =>
        if op = "-" then some (goSub k a b)
        else if op = "+" then some (goAdd k a b)
        else if op = "^" then some (goXor k a b)
        else none
  | _ => none

/-- Truth value of a comparison of integer expressions of type `k`. -/
def evalBool (k : IntType) (env : String → Nat) : Node → Option Bool
  | .paren e => evalBool k env e
  | .unary op e => if op = "!" then (evalBool k env e).map (!·) else none
  | .binary op l r =>
      (evalInt k env l).bind fun a => (evalInt k env r).bind fun b => goCompare k op a b
  | _ => none

/-! ## Statement vocabulary -/

/-- An engine without type information. -/
def untyped : Engine := { typeOf := fun _ => none, classes := fun _ _ => false }

/-- An engine for a scope declaring `var t time.Time`, `var x any` and
`var n, m int`. -/
def clockScope : Engine :=
  { typeOf := fun n =>
      match n with
      | .ident "t" => some ⟨"time.Time", "struct"⟩
      | .ident "x" => some ⟨"any", "interface"⟩
      | .ident "n" => some ⟨"int", "int"⟩
      | .ident "m" => some ⟨"int", "int"⟩
      | _ => none
    classes := fun _ _ => false }

/-- Whether the engine reports `ty` as the static type of the node. -/
def hasType (E : Engine) (n : Node) (ty : String) : Bool :=
  match E.typeOf n with
  | some t => t.name == ty
  | none => false

/-- Whether the engine reports `ty` as the underlying type of the node. -/
def hasUnderlying (E : Engine) (n : Node) (ty : String) : Bool :=
  match E.typeOf n with
  | some t => t.underlying == ty
  | none => false

/-- The statement `mu.method()`. -/
def lockStmt (mu : Node) (method : String) : Node := .exprStmt (.call (.sel mu method) [])

/-- The statement `defer mu.method()`. -/
def deferLock (mu : Node) (method : String) : Node := .deferStmt (.call (.sel mu method) [])

/-- The comparison `x arith y cmp 0`. -/
def againstZero (arith cmp : String) (x y : Node) : Node :=
  .binary cmp (.binary arith x y) (.lit "0")

/-- The diagnostic of an `oddComparisons` rule. -/
def oddDiag (t : Node) (fix : String) : Diagnostic :=
  { message := "odd comparison", suggestion := some fix, anchor := t }

/-- The declaration `func name(params) bool { body }`. -/
def boolFunc (name : String) (params body : List Node) : Node :=
  .funcDecl (.ident name) params [.ident "bool"] body

/-- The diagnostic of `boolFunctionNaming` at a declaration. -/
def boolNameDiag (decl : Node) : Diagnostic :=
  { message := "bool function name should start with \x27Is\x27 | \x27is\x27 | \x27Has\x27 | \x27has\x27"
    suggestion := none
    anchor := decl }

/-- The claim's words for the guard of `boolFunctionNaming`: the name begins
(case-sensitively) with one of `Is`, `is`, `Has`, `has`. -/
def beginsWithBoolWord (name : String) : Bool :=
  ["Is", "is", "Has", "has"].any fun p => p.data.isPrefixOf name.data

mutual
/-- The named single-node placeholders of a pattern tree. -/
def Node.vars : Node → List String
  | .ident _ => []
  | .lit _ => []
  | .mvar v => if v = "_" then [] else [v]
  | .mvarList _ => []
  | .paren e => e.vars
  | .unary _ e => e.vars
  | .binary _ l r => l.vars ++ r.vars
  | .sel e _ => e.vars
  | .call f as => f.vars ++ Node.varsList as
  | .sliceType e => e.vars
  | .mapType k v => k.vars ++ v.vars
  | .field _ t => t.vars
  | .structType fs => Node.varsList fs
  | .exprStmt e => e.vars
  | .deferStmt e => e.vars
  | .assign _ l r => l.vars ++ r.vars
  | .ret rs => Node.varsList rs
  | .ifStmt c b => c.vars ++ Node.varsList b
  | .typeDecl n t => n.vars ++ t.vars
  | .funcDecl n ps rs b => n.vars ++ Node.varsList ps ++ Node.varsList rs ++ Node.varsList b
  | .seq ss => Node.varsList ss
/-- The named single-node placeholders of a list of pattern trees. -/
def Node.varsList : List Node → List String
  | [] => []
  | p :: ps => p.vars ++ Node.varsList ps
end

/-- Whether every placeholder the rule refers to is a single-node placeholder
of the tree of each of its patterns. -/
def Rule.treesBind (r : Rule) : Bool :=
  r.referenced.all fun v => r.Match.all fun p => p.tree.vars.contains v

/-- A binding set extends another one. -/
def Keeps (b b2 : Bindings) : Prop := ∀ v c, b.lookup v = some c → b2.lookup v = some c

/-- Every listed placeholder is bound to a single node. -/
def Bound (vs : List String) (b : Bindings) : Prop :=
  ∀ v ∈ vs, ∃ n, b.lookup v = some (.one n)

/-- A matching step only extends the binding set and binds the listed
placeholders. -/
def Sound (f : Bindings → Option Bindings) (vs : List String) : Prop :=
  ∀ b b2, f b = some b2 → Keeps b b2 ∧ Bound vs b2

/-- The engine types a conversion by the type it converts to: `string(c)` is
never reported with underlying type `[]byte`, nor `[]byte(c)` with underlying
type `string`. -/
def Engine.typesConversions (E : Engine) : Prop :=
  (∀ c, hasUnderlying E (.call (.ident "string") [c]) "[]byte" = false)
    ∧ ∀ c, hasUnderlying E (.call (.sliceType (.ident "byte")) [c]) "string" = false

/-- An engine for a scope declaring `var b []byte` and `var s string`, in
which a conversion has the type it converts to. -/
def convScope : Engine :=
  { typeOf := fun n =>
      match n with
      | .ident "b" => some ⟨"[]byte", "[]byte"⟩
      | .ident "s" => some ⟨"string", "string"⟩
      | .call (.ident "string") [_] => some ⟨"string", "string"⟩
      | .call (.sliceType (.ident "byte")) [_] => some ⟨"[]byte", "[]byte"⟩
      | _ => none
    classes := fun _ _ => false }

/-- The comparison `(x - y) cmp 0` with the difference in parentheses. -/
def parenAgainstZero (cmp : String) (x y : Node) : Node :=
  .binary cmp (.paren (.binary "-" x y)) (.lit "0")

/-- The type `int8`. -/
def int8 : IntType := { bits := 8, signed := true }

/-- A valuation with `a = 3` and `b = 250` (that is `-6` as an `int8`). -/
def sampleEnv : String → Nat := fun n => if n = "a" then 3 else if n = "b" then 250 else 0

end PotetoLint

namespace PotetoLint

/-! ## The embedding is faithful to the text of `rules.go` -/

/-- Every pattern and every suggestion of the catalog is the tree of the
text written in `rules.go`. -/
theorem rules_faithful :
    rules.all (fun r => r.Match.all Pattern.faithful
      && (match r.Suggest with | none => true | some s => s.faithful)) = true := by
  decide

/-- The guards' regular expressions are the ones written in `rules.go`. -/
theorem regexps_faithful :
    String.mk boolNameRe.src = "^(Is|is|Has|has).*"
      ∧ String.mk exportedRe.src = "^\\p\x7bLu\x7d" := by
  decide


/-! ## Evaluation lemmas -/

/-- Text of `x mid y` as template expansion produces it. -/
theorem text_between (x y : Node) (mid : String) :
    String.mk (render x ++ (mid.data ++ (render y ++ []))) = x.text ++ mid ++ y.text := by
  simp [Node.text, String.ext_iff]

/-- With a single structural match, the diagnostics are those of that match. -/
theorem lint_single (E : Engine) (rs : List Rule) (t : Node) (o : Occurrence)
    (h : occurrences rs t = [o]) : lint E rs t = (o.emit E).toList := by
  simp only [lint, h, List.filterMap_cons, List.filterMap_nil]
  cases o.emit E <;> rfl

/-- A single structural match without guard always gives its diagnostic. -/
theorem lint_always (E : Engine) (rs : List Rule) (t : Node) (b : Bindings) (d : Diagnostic)
    (fix : Option Node) (h : occurrences rs t = [⟨.always, b, some d, fix⟩]) :
    lint E rs t = [d] := by
  rw [lint_single E rs t _ h]
  rfl

/-- Without a structural match there is no diagnostic. -/
theorem lint_none (E : Engine) (rs : List Rule) (t : Node)
    (h : occurrences rs t = []) : lint E rs t = [] := by
  simp [lint, h]

/-- A single rule: its evaluation goes through its occurrence. -/
theorem evalRule_of_occurrence (E : Engine) (r : Rule) (t : Node) (o : Occurrence)
    (h : occurrence r t = some o) : evalRule E r t = o.emit E := by
  simp [evalRule, h]

/-- A guard on the type of one bound node. -/
theorem passes_typeIs (E : Engine) (v ty : String) (b : Bindings) (n : Node)
    (d : Option Diagnostic) (f : Option Node) (h : lookupOne b v = some n) :
    Occurrence.passes E ⟨.typeIs v ty, b, d, f⟩ = hasType E n ty := by
  simp only [Occurrence.passes, evalFilter, h, hasType, Option.some_bind]
  cases E.typeOf n with
  | none => rfl
  | some t => simp only [Option.map_some']; cases (t.name == ty) <;> rfl

/-- A guard on the text of two bound nodes. -/
theorem passes_textEq (E : Engine) (v1 v2 : String) (b : Bindings) (n1 n2 : Node)
    (d : Option Diagnostic) (f : Option Node)
    (h1 : lookupOne b v1 = some n1) (h2 : lookupOne b v2 = some n2) :
    Occurrence.passes E ⟨.textEq v1 v2, b, d, f⟩ = decide (n1.text = n2.text) := by
  simp only [Occurrence.passes, evalFilter, h1, h2, Option.some_bind, Option.map_some']
  by_cases h : n1.text = n2.text <;> simp [h]

/-! ## Regular expressions: what the matcher accepts -/

theorem accepts_fail (cls : String → Char → Bool) (st : Bool) (cs : List Char) :
    Re.accepts cls st .fail cs = false := by
  induction cs generalizing st with
  | nil => rfl
  | cons c cs ih => simp [Re.accepts, Re.nullable, Re.deriv, ih]

theorem accepts_seq_fail (cls : String → Char → Bool) (st : Bool) (r : Re) (cs : List Char) :
    Re.accepts cls st (.seq .fail r) cs = false := by
  induction cs generalizing st with
  | nil => rfl
  | cons c cs ih => simp [Re.accepts, Re.nullable, Re.deriv, ih]

theorem accepts_alt (cls : String → Char → Bool) (st : Bool) (a b : Re) (cs : List Char) :
    Re.accepts cls st (.alt a b) cs = (Re.accepts cls st a cs || Re.accepts cls st b cs) := by
  induction cs generalizing st a b with
  | nil => rfl
  | cons c cs ih =>
    simp only [Re.accepts, Re.nullable, Re.deriv, ih]
    cases a.nullable st <;> cases b.nullable st <;> simp

theorem accepts_group (cls : String → Char → Bool) (st : Bool) (r : Re) (cs : List Char) :
    Re.accepts cls st (.group r) cs = Re.accepts cls st r cs := by
  cases cs <;> simp [Re.accepts, Re.nullable, Re.deriv]

theorem accepts_str (cls : String → Char → Bool) (st : Bool) (p cs : List Char) :
    Re.accepts cls st (.str p) cs = p.isPrefixOf cs := by
  induction cs generalizing st p with
  | nil => cases p <;> rfl
  | cons c cs ih =>
    cases p with
    | nil => simp [Re.accepts, Re.nullable]
    | cons a p =>
      simp only [Re.accepts, Re.nullable, Re.deriv, List.isPrefixOf, List.isEmpty_cons,
        Bool.false_or]
      by_cases h : a = c
      · simp [h, ih]
      · simp [h, accepts_fail]

theorem accepts_seq_star (cls : String → Char → Bool) (st : Bool) (a x : Re) (cs : List Char) :
    Re.accepts cls st (.seq a (.star x)) cs = Re.accepts cls st a cs := by
  induction cs generalizing st a with
  | nil => simp [Re.accepts, Re.nullable]
  | cons c cs ih =>
    simp only [Re.accepts, Re.nullable, Re.deriv, Bool.and_true]
    cases h : a.nullable st
    · simp [ih]
    · simp

theorem accepts_bol_start (cls : String → Char → Bool) (r : Re) (cs : List Char) :
    Re.accepts cls true (.seq .bol r) cs = Re.accepts cls true r cs := by
  cases cs with
  | nil => simp [Re.accepts, Re.nullable]
  | cons c cs => simp [Re.accepts, Re.nullable, Re.deriv, accepts_alt, accepts_seq_fail]

theorem accepts_bol_later (cls : String → Char → Bool) (r : Re) (cs : List Char) :
    Re.accepts cls false (.seq .bol r) cs = false := by
  cases cs with
  | nil => simp [Re.accepts, Re.nullable]
  | cons c cs => simp [Re.accepts, Re.nullable, Re.deriv, accepts_seq_fail]

theorem search_bol_later (cls : String → Char → Bool) (r : Re) (cs : List Char) :
    Re.search cls false (.seq .bol r) cs = false := by
  induction cs with
  | nil => simp [Re.search, Re.nullable]
  | cons c cs ih => simp [Re.search, accepts_bol_later, ih]

theorem search_bol (cls : String → Char → Bool) (r : Re) (cs : List Char) :
    Re.search cls true (.seq .bol r) cs = Re.accepts cls true r cs := by
  cases cs with
  | nil => simp [Re.search, Re.accepts, Re.nullable]
  | cons c cs => simp [Re.search, accepts_bol_start, search_bol_later]

/-- The names the guard of `boolFunctionNaming` lets through. -/
theorem search_boolNameRe (cls : String → Char → Bool) (cs : List Char) :
    Re.search cls true boolNameRe cs =
      ("Is".data.isPrefixOf cs || "is".data.isPrefixOf cs || "Has".data.isPrefixOf cs
        || "has".data.isPrefixOf cs) := by
  simp only [boolNameRe, search_bol, accepts_seq_star, accepts_group, accepts_alt, accepts_str,
    Bool.or_assoc]

/-! ## Variadic placeholders -/

theorem matchList_nil_cons (t : Node) (ts : List Node) (b : Bindings) :
    matchList [] (t :: ts) b = none := rfl

theorem matchList_nil_nil (b : Bindings) : matchList [] [] b = some b := rfl

/-- A lone variadic placeholder takes the whole list. -/
theorem matchList_var (v : String) (ts : List Node) (b : Bindings) :
    matchList [.mvarList v] ts b = bindMany v ts b := by
  have h : matchList [.mvarList v] ts b
      = (List.range (ts.length + 1)).findSome? fun k =>
          (bindMany v (ts.take k) b).bind (matchList [] (ts.drop k)) := by
    cases ts <;> rfl
  rw [h, List.range_succ, List.findSome?_append]
  have h0 : (List.range ts.length).findSome? (fun k =>
      (bindMany v (ts.take k) b).bind (matchList [] (ts.drop k))) = none := by
    rw [List.findSome?_eq_none_iff]
    intro k hk
    have hlt : k < ts.length := List.mem_range.mp hk
    cases hd : ts.drop k with
    | nil => exact absurd (List.drop_eq_nil_iff.mp hd) (Nat.not_le.mpr hlt)
    | cons t rest =>
      cases bindMany v (ts.take k) b <;> simp [matchList_nil_cons]
  rw [h0]
  simp only [List.findSome?_cons, List.findSome?_nil, List.take_length, List.drop_length,
    Option.none_or]
  cases bindMany v ts b <;> simp [matchList_nil_nil]


/-- A rule tried at a node that is not a statement list. -/
theorem lint_one_rule (E : Engine) (r : Rule) (t : Node) (h : candidates t = [t]) :
    lint E [r] t = (evalRule E r t).toList := by
  simp only [lint, occurrences, h, evalRule, List.flatMap_cons, List.flatMap_nil,
    List.append_nil, List.filterMap_cons, List.filterMap_nil]
  cases occurrence r t with
  | none => rfl
  | some o => simp only [List.filterMap_cons, List.filterMap_nil, Option.some_bind]; cases o.emit E <;> rfl

/-- A rule with one pattern matches as its pattern does. -/
theorem firstMatch_single (r : Rule) (p : Pattern) (t : Node) (h : r.Match = [p]) :
    firstMatch r t = matchNode p.tree t [] := by
  simp only [firstMatch, h, List.findSome?]
  cases matchNode p.tree t [] <;> rfl

/-- The structural match of `boolFunctionNaming` at a declaration returning a
single `bool`. -/
theorem occurrence_boolFunc (name : String) (params body : List Node) :
    occurrence boolFunctionNaming.rule (boolFunc name params body)
      = some ⟨.not (.textMatches "name" boolNameRe),
          [("body", .many body), ("params", .many params), ("name", .one (.ident name))],
          some (boolNameDiag (boolFunc name params body)), none⟩ := by
  have e : matchNode
        (.funcDecl (.mvar "name") [.mvarList "params"] [.ident "bool"] [.mvarList "body"])
        (boolFunc name params body) []
      = ((matchList [.mvarList "params"] params [("name", .one (.ident name))]).bind
          (matchList [.ident "bool"] [.ident "bool"])).bind (matchList [.mvarList "body"] body) := rfl
  have e2 : firstMatch boolFunctionNaming.rule (boolFunc name params body)
      = some [("body", .many body), ("params", .many params), ("name", .one (.ident name))] := by
    rw [firstMatch_single _ _ _ rfl, e, matchList_var]
    show matchList [.mvarList "body"] body [("params", .many params), ("name", .one (.ident name))] = _
    rw [matchList_var]
    rfl
  simp only [occurrence, e2, Option.map_some']
  rfl

/-! ## Cross-checks of the model -/

/-- The diagnostics at a node are those of each rule tried at each candidate
in turn. -/
theorem lint_eq_evalRule (E : Engine) (rs : List Rule) (t : Node) :
    lint E rs t = (candidates t).flatMap fun c => rs.filterMap fun r => evalRule E r c := by
  have inner : ∀ (l : List Rule) (c : Node),
      (l.filterMap fun r => occurrence r c).filterMap (fun o => o.emit E)
        = l.filterMap fun r => evalRule E r c := by
    intro l c
    induction l with
    | nil => rfl
    | cons r l ih =>
      have hr : evalRule E r c = (occurrence r c).bind fun o => o.emit E := rfl
      simp only [List.filterMap_cons, hr]
      cases occurrence r c with
      | none => exact ih
      | some o =>
        simp only [List.filterMap_cons, Option.some_bind]
        cases o.emit E with
        | none => exact ih
        | some d => exact congrArg (d :: ·) ih
  unfold lint occurrences
  induction candidates t with
  | nil => rfl
  | cons c cs ih =>
    simp only [List.flatMap_cons, List.filterMap_append, inner, ih]

/-- The rules that carry a suggestion are those of `oddComparisons`,
`lenStrByteSlice` and `lenByteSliceStr`. -/
theorem rules_with_suggestion :
    rules.filter (fun r => r.Suggest.isSome)
      = oddComparisons ++ lenStrByteSlice ++ lenByteSliceStr := rfl

/-- Text of `x op y` as template expansion produces it. -/
theorem text_binary (x y : Node) (op : String) :
    String.mk (render x ++ (' ' :: op.data ++ ' ' :: (render y ++ []))) = (Node.binary op x y).text := by
  have h : (Node.binary op x y).text = String.mk (render x ++ ' ' :: op.data ++ ' ' :: render y) := rfl
  simp only [h, List.append_nil, List.append_assoc, List.cons_append]

/-- The suggestion a rule of `oddComparisons` attaches to its diagnostic is
the text of the snippet `rewrite` yields. -/
theorem suggestion_text_of_rewrite (E : Engine) (x y : Node) :
    evalRule E oddComparisons.subEq (againstZero "-" "==" x y)
        = some (oddDiag (againstZero "-" "==" x y) (Node.binary "==" x y).text)
    ∧ evalRule E oddComparisons.subNe (againstZero "-" "!=" x y)
        = some (oddDiag (againstZero "-" "!=" x y) (Node.binary "!=" x y).text)
    ∧ evalRule E oddComparisons.subLt (againstZero "-" "<" x y)
        = some (oddDiag (againstZero "-" "<" x y) (Node.binary ">" y x).text)
    ∧ evalRule E oddComparisons.subLe (againstZero "-" "<=" x y)
        = some (oddDiag (againstZero "-" "<=" x y) (Node.binary ">=" y x).text)
    ∧ evalRule E oddComparisons.subGt (againstZero "-" ">" x y)
        = some (oddDiag (againstZero "-" ">" x y) (Node.binary ">" x y).text)
    ∧ evalRule E oddComparisons.subGe (againstZero "-" ">=" x y)
        = some (oddDiag (againstZero "-" ">=" x y) (Node.binary ">=" x y).text)
    ∧ evalRule E oddComparisons.xorEq (againstZero "^" "==" x y)
        = some (oddDiag (againstZero "^" "==" x y) (Node.binary "==" x y).text)
    ∧ evalRule E oddComparisons.xorNe (againstZero "^" "!=" x y)
        = some (oddDiag (againstZero "^" "!=" x y) (Node.binary "!=" x y).text) := by
  refine ⟨?_, ?_, ?_, ?_, ?_, ?_, ?_, ?_⟩ <;> rw [← text_binary] <;> rfl


/-! ## The claims -/

/-- C1 (as amended): on `l == r` and `l != r` the rules of `timeEqual` emit
their diagnostic exactly when the left operand has static type `time.Time`,
whatever the right operand is. -/
theorem timeEqual_guards_left_operand (E : Engine) (l r : Node) :
    lint E timeEqual (.binary "==" l r)
        = (if hasType E l "time.Time" then
            [{ message := "using == with time.Time", suggestion := none, anchor := .binary "==" l r }]
          else [])
    ∧ lint E timeEqual (.binary "!=" l r)
        = (if hasType E l "time.Time" then
            [{ message := "using != with time.Time", suggestion := none, anchor := .binary "!=" l r }]
          else []) := by
  have h1 : occurrences timeEqual (.binary "==" l r)
      = [⟨.typeIs "t0" "time.Time", [("t1", .one r), ("t0", .one l)],
          some ⟨"using == with time.Time", none, .binary "==" l r⟩, none⟩] := rfl
  have h2 : occurrences timeEqual (.binary "!=" l r)
      = [⟨.typeIs "t0" "time.Time", [("t1", .one r), ("t0", .one l)],
          some ⟨"using != with time.Time", none, .binary "!=" l r⟩, none⟩] := rfl
  have g : lookupOne [("t1", Capture.one r), ("t0", .one l)] "t0" = some l := rfl
  rw [lint_single E _ _ _ h1, lint_single E _ _ _ h2, Occurrence.emit, Occurrence.emit,
    passes_typeIs E _ _ _ l _ _ g, passes_typeIs E _ _ _ l _ _ g]
  cases hasType E l "time.Time" <;> exact ⟨rfl, rfl⟩

/-- C1 (counterexample): in a scope with `var x any` and `var t time.Time`,
the right operand of `x == t` has static type `time.Time`, the left one has
not, and no rule of `timeEqual` fires, neither on `x == t` nor on `x != t`. -/
theorem timeEqual_misses_right_operand :
    hasType clockScope (.ident "t") "time.Time" = true
      ∧ hasType clockScope (.ident "x") "time.Time" = false
      ∧ lint clockScope timeEqual (.binary "==" (.ident "x") (.ident "t")) = []
      ∧ lint clockScope timeEqual (.binary "!=" (.ident "x") (.ident "t")) = [] :=
  ⟨rfl, rfl, rfl, rfl⟩

/-- The examples of C1: `t == x` with `t` a `time.Time` triggers, the
comparison `n == m` of two plain integers does not. -/
theorem timeEqual_examples :
    lint clockScope timeEqual (.binary "==" (.ident "t") (.ident "x"))
        = [{ message := "using == with time.Time"
             suggestion := none
             anchor := .binary "==" (.ident "t") (.ident "x") }]
    ∧ lint clockScope timeEqual (.binary "==" (.ident "n") (.ident "m")) = [] :=
  ⟨rfl, rfl⟩

/-- C3 (as amended): for all captured operands `x` and `y` the rules of
`oddComparisons` report "odd comparison" and suggest `x == y` for
`x - y == 0`, `x != y` for `x - y != 0`, `y > x` for `x - y < 0`, `y >= x` for
`x - y <= 0`, `x > y` for `x - y > 0` and `x >= y` for `x - y >= 0`; so
`a - b == 0` rewrites to `a == b`, `a - b > 0` to `a > b` and `a - b < 0` to
`b > a`.  A difference in parentheses, as in `(x - y) == 0`, is matched by no
rule of `oddComparisons`. -/
theorem oddComparisons_suggestions (E : Engine) (x y : Node) :
    (lint E oddComparisons (againstZero "-" "==" x y)
        = [oddDiag (againstZero "-" "==" x y) (x.text ++ " == " ++ y.text)]
    ∧ lint E oddComparisons (againstZero "-" "!=" x y)
        = [oddDiag (againstZero "-" "!=" x y) (x.text ++ " != " ++ y.text)]
    ∧ lint E oddComparisons (againstZero "-" ">" x y)
        = [oddDiag (againstZero "-" ">" x y) (x.text ++ " > " ++ y.text)]
    ∧ lint E oddComparisons (againstZero "-" ">=" x y)
        = [oddDiag (againstZero "-" ">=" x y) (x.text ++ " >= " ++ y.text)]
    ∧ lint E oddComparisons (againstZero "-" "<" x y)
        = [oddDiag (againstZero "-" "<" x y) (y.text ++ " > " ++ x.text)]
    ∧ lint E oddComparisons (againstZero "-" "<=" x y)
        = [oddDiag (againstZero "-" "<=" x y) (y.text ++ " >= " ++ x.text)])
    ∧ ((againstZero "-" "==" (.ident "a") (.ident "b")).text = "a - b == 0"
      ∧ lint E oddComparisons (againstZero "-" "==" (.ident "a") (.ident "b"))
          = [oddDiag (againstZero "-" "==" (.ident "a") (.ident "b")) "a == b"]
      ∧ (againstZero "-" ">" (.ident "a") (.ident "b")).text = "a - b > 0"
      ∧ lint E oddComparisons (againstZero "-" ">" (.ident "a") (.ident "b"))
          = [oddDiag (againstZero "-" ">" (.ident "a") (.ident "b")) "a > b"]
      ∧ (againstZero "-" "<" (.ident "a") (.ident "b")).text = "a - b < 0"
      ∧ lint E oddComparisons (againstZero "-" "<" (.ident "a") (.ident "b"))
          = [oddDiag (againstZero "-" "<" (.ident "a") (.ident "b")) "b > a"])
    ∧ (lint E oddComparisons (parenAgainstZero "==" x y) = []
      ∧ lint E oddComparisons (parenAgainstZero "!=" x y) = []
      ∧ lint E oddComparisons (parenAgainstZero ">" x y) = []
      ∧ lint E oddComparisons (parenAgainstZero ">=" x y) = []
      ∧ lint E oddComparisons (parenAgainstZero "<" x y) = []
      ∧ lint E oddComparisons (parenAgainstZero "<=" x y) = []) := by
  refine ⟨⟨?_, ?_, ?_, ?_, ?_, ?_⟩, ⟨rfl, rfl, rfl, rfl, rfl, rfl⟩,
    ⟨lint_none E _ _ rfl, lint_none E _ _ rfl, lint_none E _ _ rfl, lint_none E _ _ rfl,
     lint_none E _ _ rfl, lint_none E _ _ rfl⟩⟩ <;> rw [← text_between]
  · exact lint_always E _ _ [("y", .one y), ("x", .one x)] _ (some (.binary "==" x y)) rfl
  · exact lint_always E _ _ [("y", .one y), ("x", .one x)] _ (some (.binary "!=" x y)) rfl
  · exact lint_always E _ _ [("y", .one y), ("x", .one x)] _ (some (.binary ">" x y)) rfl
  · exact lint_always E _ _ [("y", .one y), ("x", .one x)] _ (some (.binary ">=" x y)) rfl
  · exact lint_always E _ _ [("y", .one y), ("x", .one x)] _ (some (.binary ">" y x)) rfl
  · exact lint_always E _ _ [("y", .one y), ("x", .one x)] _ (some (.binary ">=" y x)) rfl

/-- C3 (counterexample): the snippets `(a - b) == 0`, `(a - b) > 0` and
`(a - b) < 0` of the claim have a parenthesised left operand, which no pattern
of `oddComparisons` matches: no diagnostic and no rewrite. -/
theorem oddComparisons_paren_quiet :
    (parenAgainstZero "==" (.ident "a") (.ident "b")).text = "(a - b) == 0"
    ∧ lint untyped oddComparisons (parenAgainstZero "==" (.ident "a") (.ident "b")) = []
    ∧ rewrite untyped oddComparisons.subEq (parenAgainstZero "==" (.ident "a") (.ident "b")) = none
    ∧ (parenAgainstZero ">" (.ident "a") (.ident "b")).text = "(a - b) > 0"
    ∧ lint untyped oddComparisons (parenAgainstZero ">" (.ident "a") (.ident "b")) = []
    ∧ rewrite untyped oddComparisons.subGt (parenAgainstZero ">" (.ident "a") (.ident "b")) = none
    ∧ (parenAgainstZero "<" (.ident "a") (.ident "b")).text = "(a - b) < 0"
    ∧ lint untyped oddComparisons (parenAgainstZero "<" (.ident "a") (.ident "b")) = []
    ∧ rewrite untyped oddComparisons.subLt (parenAgainstZero "<" (.ident "a") (.ident "b")) = none :=
  ⟨rfl, rfl, rfl, rfl, rfl, rfl, rfl, rfl, rfl⟩

/-- The rewrites of `a - b == 0`, `a - b > 0` and `a - b < 0` without type
information. -/
theorem oddComparisons_examples :
    (againstZero "-" "==" (.ident "a") (.ident "b")).text = "a - b == 0"
    ∧ lint untyped oddComparisons (againstZero "-" "==" (.ident "a") (.ident "b"))
        = [oddDiag (againstZero "-" "==" (.ident "a") (.ident "b")) "a == b"]
    ∧ lint untyped oddComparisons (againstZero "-" ">" (.ident "a") (.ident "b"))
        = [oddDiag (againstZero "-" ">" (.ident "a") (.ident "b")) "a > b"]
    ∧ lint untyped oddComparisons (againstZero "-" "<" (.ident "a") (.ident "b"))
        = [oddDiag (againstZero "-" "<" (.ident "a") (.ident "b")) "b > a"] :=
  ⟨rfl, rfl, rfl, rfl⟩

/-- C4: on a declaration `func name(params) bool { body }`, with any
parameters and any body, `boolFunctionNaming` emits its diagnostic if and
only if the name does not begin with `Is`, `is`, `Has` or `has`. -/
theorem boolFunctionNaming_fires_iff (E : Engine) (name : String) (params body : List Node) :
    lint E boolFunctionNaming (boolFunc name params body)
      = (if beginsWithBoolWord name then []
         else [boolNameDiag (boolFunc name params body)]) := by
  have hc : candidates (boolFunc name params body) = [boolFunc name params body] := rfl
  have hp : Occurrence.passes E ⟨.not (.textMatches "name" boolNameRe),
      [("body", .many body), ("params", .many params), ("name", .one (.ident name))],
      some (boolNameDiag (boolFunc name params body)), none⟩ = !beginsWithBoolWord name := by
    have g : lookupOne [("body", Capture.many body), ("params", .many params),
        ("name", .one (.ident name))] "name" = some (.ident name) := rfl
    have r : render (.ident name) = name.data := rfl
    simp only [Occurrence.passes, evalFilter, g, Option.map_some', r, search_boolNameRe,
      beginsWithBoolWord, List.any_cons, List.any_nil, Bool.or_false, Bool.or_assoc]
    cases ("Is".data.isPrefixOf name.data || ("is".data.isPrefixOf name.data
      || ("Has".data.isPrefixOf name.data || "has".data.isPrefixOf name.data))) <;> rfl
  rw [boolFunctionNaming, lint_one_rule E _ _ hc,
    evalRule_of_occurrence E _ _ _ (occurrence_boolFunc name params body), Occurrence.emit, hp]
  cases beginsWithBoolWord name <;> rfl

/-- The examples of C4: `Ready()` and `Ready(x int)` trigger, `IsReady()` and
`HasItems()` do not; the test is case-sensitive, `ISOpen()` triggers. -/
theorem boolFunctionNaming_examples :
    (boolFunc "Ready" [] [.ret [.ident "true"]]).text = "func Ready() bool \x7b return true \x7d"
    ∧ lint untyped boolFunctionNaming (boolFunc "Ready" [] [.ret [.ident "true"]])
        = [boolNameDiag (boolFunc "Ready" [] [.ret [.ident "true"]])]
    ∧ lint untyped boolFunctionNaming
          (boolFunc "Ready" [.field ["x"] (.ident "int")] [.ret [.ident "true"]])
        = [boolNameDiag (boolFunc "Ready" [.field ["x"] (.ident "int")] [.ret [.ident "true"]])]
    ∧ lint untyped boolFunctionNaming (boolFunc "IsReady" [] [.ret [.ident "true"]]) = []
    ∧ lint untyped boolFunctionNaming (boolFunc "HasItems" [] [.ret [.ident "true"]]) = []
    ∧ lint untyped boolFunctionNaming (boolFunc "ISOpen" [] [.ret [.ident "true"]])
        = [boolNameDiag (boolFunc "ISOpen" [] [.ret [.ident "true"]])] :=
  ⟨rfl, rfl, rfl, rfl, rfl, rfl⟩


/-- The diagnostic of a `badLock` rule, anchored at the second lock reference. -/
theorem lint_lock_pair (E : Engine) (t a b : Node) (msg : String)
    (h : occurrences badLock t
      = [⟨.textEq "mu1" "mu2", [("mu2", .one b), ("mu1", .one a)], some ⟨msg, none, b⟩, none⟩]) :
    lint E badLock t = if a.text = b.text then [⟨msg, none, b⟩] else [] := by
  have g1 : lookupOne [("mu2", Capture.one b), ("mu1", .one a)] "mu1" = some a := rfl
  have g2 : lookupOne [("mu2", Capture.one b), ("mu1", .one a)] "mu2" = some b := rfl
  rw [lint_single E _ _ _ h, Occurrence.emit, passes_textEq E _ _ _ a b _ _ g1 g2]
  by_cases e : a.text = b.text <;> simp [e]

/-- One `badLock` rule at a pair of statements it matches structurally. -/
theorem evalRule_lock_pair (E : Engine) (r : Rule) (t a b : Node) (msg : String)
    (h : occurrence r t
      = some ⟨.textEq "mu1" "mu2", [("mu2", .one b), ("mu1", .one a)], some ⟨msg, none, b⟩, none⟩) :
    evalRule E r t = if a.text = b.text then some ⟨msg, none, b⟩ else none := by
  have g1 : lookupOne [("mu2", Capture.one b), ("mu1", .one a)] "mu1" = some a := rfl
  have g2 : lookupOne [("mu2", Capture.one b), ("mu1", .one a)] "mu2" = some b := rfl
  rw [evalRule_of_occurrence E _ _ _ h, Occurrence.emit, passes_textEq E _ _ _ a b _ _ g1 g2]
  by_cases e : a.text = b.text <;> simp [e]

/-- C5: on the adjacent statements `a.Lock(); defer b.RUnlock()` the rule
`$mu1.Lock(); defer $mu2.RUnlock()` fires if and only if the texts of `a` and
`b` are identical; its diagnostic is then "suspicious unlock, maybe Unlock was
intended?", anchored at `b`, and it is the only diagnostic of `badLock`.  On
`mu.RLock(); defer mu.RUnlock()` no rule of `badLock` fires. -/
theorem badLock_mismatched_kind (E : Engine) (a b mu : Node) :
    evalRule E badLock.lockDeferRUnlock (.seq [lockStmt a "Lock", deferLock b "RUnlock"])
        = (if a.text = b.text then
            some { message := "suspicious unlock, maybe Unlock was intended?"
                   suggestion := none
                   anchor := b }
          else none)
    ∧ lint E badLock (.seq [lockStmt a "Lock", deferLock b "RUnlock"])
        = (if a.text = b.text then
            [{ message := "suspicious unlock, maybe Unlock was intended?"
               suggestion := none
               anchor := b }]
          else [])
    ∧ lint E badLock (.seq [lockStmt mu "RLock", deferLock mu "RUnlock"]) = [] :=
  ⟨evalRule_lock_pair E _ _ a b _ rfl, lint_lock_pair E _ a b _ rfl, lint_none E _ _ rfl⟩

/-- C6: on the adjacent statements `a.Lock(); b.Unlock()`, and likewise on
`a.RLock(); b.RUnlock()`, the matching rule of `badLock` fires if and only if
the texts of `a` and `b` are identical, reporting "defer is missing, mutex is
unlocked immediately" at `b`, and it is the only diagnostic of `badLock`.  On
`mu.Lock(); doWork(); defer mu.Unlock()` no rule of `badLock` fires. -/
theorem badLock_without_defer (E : Engine) (a b mu : Node) :
    evalRule E badLock.lockUnlock (.seq [lockStmt a "Lock", lockStmt b "Unlock"])
        = (if a.text = b.text then
            some { message := "defer is missing, mutex is unlocked immediately"
                   suggestion := none
                   anchor := b }
          else none)
    ∧ lint E badLock (.seq [lockStmt a "Lock", lockStmt b "Unlock"])
        = (if a.text = b.text then
            [{ message := "defer is missing, mutex is unlocked immediately"
               suggestion := none
               anchor := b }]
          else [])
    ∧ evalRule E badLock.rlockRUnlock (.seq [lockStmt a "RLock", lockStmt b "RUnlock"])
        = (if a.text = b.text then
            some { message := "defer is missing, mutex is unlocked immediately"
                   suggestion := none
                   anchor := b }
          else none)
    ∧ lint E badLock (.seq [lockStmt a "RLock", lockStmt b "RUnlock"])
        = (if a.text = b.text then
            [{ message := "defer is missing, mutex is unlocked immediately"
               suggestion := none
               anchor := b }]
          else [])
    ∧ lint E badLock
        (.seq [lockStmt mu "Lock", .exprStmt (.call (.ident "doWork") []), deferLock mu "Unlock"])
        = [] :=
  ⟨evalRule_lock_pair E _ _ a b _ rfl, lint_lock_pair E _ a b _ rfl,
   evalRule_lock_pair E _ _ a b _ rfl, lint_lock_pair E _ a b _ rfl, lint_none E _ _ rfl⟩

/-- The examples of C5 and C6 on the lock `mu`. -/
theorem badLock_examples :
    (Node.seq [lockStmt (.ident "mu") "Lock", deferLock (.ident "mu") "RUnlock"]).text
        = "mu.Lock(); defer mu.RUnlock()"
    ∧ lint untyped badLock (.seq [lockStmt (.ident "mu") "Lock", deferLock (.ident "mu") "RUnlock"])
        = [⟨"suspicious unlock, maybe Unlock was intended?", none, .ident "mu"⟩]
    ∧ lint untyped badLock (.seq [lockStmt (.ident "mu") "Lock", lockStmt (.ident "mu") "Unlock"])
        = [⟨"defer is missing, mutex is unlocked immediately", none, .ident "mu"⟩]
    ∧ lint untyped badLock (.seq [lockStmt (.ident "mu") "Lock", lockStmt (.ident "nu") "Unlock"])
        = [] :=
  ⟨rfl, rfl, rfl, rfl⟩

/-- C8 (as amended): the rule for `!(x != y)` emits a diagnostic whose message
is the text `x == y`, the rule for `!(x == y)` one whose message is `x != y`,
with the captured texts in the same order; neither diagnostic carries a
suggestion. -/
theorem boolExprSimplify_reports_rewrite (E : Engine) (x y : Node) :
    evalRule E boolExprSimplify.notNe (.unary "!" (.paren (.binary "!=" x y)))
        = some { message := x.text ++ " == " ++ y.text
                 suggestion := none
                 anchor := .unary "!" (.paren (.binary "!=" x y)) }
    ∧ evalRule E boolExprSimplify.notEq (.unary "!" (.paren (.binary "==" x y)))
        = some { message := x.text ++ " != " ++ y.text
                 suggestion := none
                 anchor := .unary "!" (.paren (.binary "==" x y)) } := by
  refine ⟨?_, ?_⟩ <;> rw [← text_between] <;> rfl

/-- C8 (counterexample): the diagnostic for `!(a != b)` has the message
`a == b` and no suggestion, and likewise for `!(a == b)`. -/
theorem boolExprSimplify_no_suggestion :
    evalRule untyped boolExprSimplify.notNe
        (.unary "!" (.paren (.binary "!=" (.ident "a") (.ident "b"))))
      = some { message := "a == b"
               suggestion := none
               anchor := .unary "!" (.paren (.binary "!=" (.ident "a") (.ident "b"))) }
    ∧ evalRule untyped boolExprSimplify.notEq
        (.unary "!" (.paren (.binary "==" (.ident "a") (.ident "b"))))
      = some { message := "a != b"
               suggestion := none
               anchor := .unary "!" (.paren (.binary "==" (.ident "a") (.ident "b"))) } :=
  ⟨rfl, rfl⟩


/-! ## Go's integers: the arithmetic behind the rewrites -/

theorem modulus_pos (k : IntType) : 0 < k.modulus := Nat.pow_pos (by decide)

theorem parseDec_zero : parseDec "0".data = some 0 := by decide

/-- Values of integer expressions are bit patterns of the type. -/
theorem evalInt_lt (k : IntType) (env : String → Nat) :
    ∀ (e : Node) (v : Nat), evalInt k env e = some v → v < k.modulus
  | .ident n, v, h => by
      simp only [evalInt, Option.some.injEq] at h
      subst h; exact Nat.mod_lt _ (modulus_pos k)
  | .lit s, v, h => by
      simp only [evalInt, Option.map_eq_some'] at h
      obtain ⟨n, _, rfl⟩ := h
      exact Nat.mod_lt _ (modulus_pos k)
  | .paren e, v, h => evalInt_lt k env e v (by simpa only [evalInt] using h)
  | .binary op l r, v, h => by
      simp only [evalInt, Option.bind_eq_some] at h
      obtain ⟨a, _, b, _, h⟩ := h
      split_ifs at h <;> simp only [Option.some.injEq, reduceCtorEq] at h <;> subst h <;>
        exact Nat.mod_lt _ (modulus_pos k)
  | .mvar _, _, h => by simp [evalInt] at h
  | .mvarList _, _, h => by simp [evalInt] at h
  | .unary _ _, _, h => by simp [evalInt] at h
  | .sel _ _, _, h => by simp [evalInt] at h
  | .call _ _, _, h => by simp [evalInt] at h
  | .sliceType _, _, h => by simp [evalInt] at h
  | .mapType _ _, _, h => by simp [evalInt] at h
  | .field _ _, _, h => by simp [evalInt] at h
  | .structType _, _, h => by simp [evalInt] at h
  | .exprStmt _, _, h => by simp [evalInt] at h
  | .deferStmt _, _, h => by simp [evalInt] at h
  | .assign _ _ _, _, h => by simp [evalInt] at h
  | .ret _, _, h => by simp [evalInt] at h
  | .ifStmt _ _, _, h => by simp [evalInt] at h
  | .typeDecl _ _, _, h => by simp [evalInt] at h
  | .funcDecl _ _ _ _, _, h => by simp [evalInt] at h
  | .seq _, _, h => by simp [evalInt] at h

/-- The wrapping difference of two bit patterns. -/
theorem goSub_eq (k : IntType) (a b : Nat) (ha : a < k.modulus) (hb : b < k.modulus) :
    goSub k a b = if b ≤ a then a - b else a + k.modulus - b := by
  unfold goSub
  rw [Nat.mod_eq_of_lt hb]
  split_ifs with h
  · have e : a + (k.modulus - b) = (a - b) + k.modulus := by omega
    rw [e, Nat.add_mod_right, Nat.mod_eq_of_lt (by omega)]
  · rw [Nat.mod_eq_of_lt (by omega)]
    omega

theorem goSub_eq_zero (k : IntType) (a b : Nat) (ha : a < k.modulus) (hb : b < k.modulus) :
    goSub k a b = 0 ↔ a = b := by
  rw [goSub_eq k a b ha hb]
  split_ifs with h <;> omega

theorem goXor_eq_zero (k : IntType) (a b : Nat) (ha : a < k.modulus) (hb : b < k.modulus) :
    goXor k a b = 0 ↔ a = b := by
  unfold goXor
  have h : a ^^^ b < k.modulus := Nat.xor_lt_two_pow ha hb
  rw [Nat.mod_eq_of_lt h]
  exact Nat.xor_eq_zero

theorem value_of_lt (k : IntType) (p : Nat) (hp : p < k.modulus) :
    k.value p = if k.signed = true ∧ k.modulus ≤ 2 * p then (p : Int) - (k.modulus : Int)
      else (p : Int) := by
  unfold IntType.value
  rw [Nat.mod_eq_of_lt hp]
  simp only [Bool.and_eq_true, decide_eq_true_eq]

theorem value_zero (k : IntType) : k.value 0 = 0 := by
  rw [value_of_lt k 0 (modulus_pos k)]
  have := modulus_pos k
  split_ifs with h
  · omega
  · rfl

/-- When the exact difference is a value of the type, the wrapping
difference denotes it. -/
theorem value_goSub (k : IntType) (a b : Nat) (ha : a < k.modulus) (hb : b < k.modulus)
    (h : k.represents (k.value a - k.value b)) :
    k.value (goSub k a b) = k.value a - k.value b := by
  have hs : goSub k a b < k.modulus := Nat.mod_lt _ (modulus_pos k)
  rw [value_of_lt k _ hs, goSub_eq k a b ha hb]
  rw [value_of_lt k a ha, value_of_lt k b hb] at h ⊢
  unfold IntType.represents at h
  cases hk : k.signed <;> simp only [hk, Bool.false_eq_true, false_and, if_false, true_and,
    if_true] at h ⊢ <;> split_ifs at h ⊢ <;> omega


theorem evalInt_zero (k : IntType) (env : String → Nat) : evalInt k env (.lit "0") = some 0 := by
  have h : evalInt k env (.lit "0") = (parseDec "0".data).map (· % k.modulus) := rfl
  rw [h, parseDec_zero, Option.map_some', Nat.zero_mod]

theorem evalInt_sub (k : IntType) (env : String → Nat) (x y : Node) (vx vy : Nat)
    (hx : evalInt k env x = some vx) (hy : evalInt k env y = some vy) :
    evalInt k env (.binary "-" x y) = some (goSub k vx vy) := by
  simp only [evalInt, hx, hy, Option.some_bind]
  rfl

theorem evalInt_xor (k : IntType) (env : String → Nat) (x y : Node) (vx vy : Nat)
    (hx : evalInt k env x = some vx) (hy : evalInt k env y = some vy) :
    evalInt k env (.binary "^" x y) = some (goXor k vx vy) := by
  simp only [evalInt, hx, hy, Option.some_bind]
  rfl

theorem evalBool_compare (k : IntType) (env : String → Nat) (op : String) (l r : Node)
    (a b : Nat) (hl : evalInt k env l = some a) (hr : evalInt k env r = some b) :
    evalBool k env (.binary op l r) = goCompare k op a b := by
  simp only [evalBool, hl, hr, Option.some_bind]

/-- A comparison of `x - y` (or `x ^ y`) against the literal `0`. -/
theorem evalBool_againstZero (k : IntType) (env : String → Nat) (arith cmp : String)
    (x y : Node) (d : Nat) (h : evalInt k env (.binary arith x y) = some d) :
    evalBool k env (againstZero arith cmp x y) = goCompare k cmp d 0 :=
  evalBool_compare k env cmp _ _ d 0 h (evalInt_zero k env)

/-- C9: for every integer type (any width, signed or not) and all operands
`x`, `y` with values `vx`, `vy` of that type, the wrapping difference is zero
exactly when `vx = vy`, the exclusive or is zero exactly when `vx = vy`, and
each equality-form rule of `oddComparisons` rewrites its snippet to one with
the same truth value. -/
theorem equality_rewrites_preserve_truth (E : Engine) (k : IntType) (env : String → Nat)
    (x y : Node) (vx vy : Nat)
    (hx : evalInt k env x = some vx) (hy : evalInt k env y = some vy) :
    (goSub k vx vy = 0 ↔ vx = vy) ∧ (goXor k vx vy = 0 ↔ vx = vy)
    ∧ (rewrite E oddComparisons.subEq (againstZero "-" "==" x y) = some (.binary "==" x y)
        ∧ evalBool k env (againstZero "-" "==" x y) = some (decide (vx = vy))
        ∧ evalBool k env (.binary "==" x y) = some (decide (vx = vy)))
    ∧ (rewrite E oddComparisons.subNe (againstZero "-" "!=" x y) = some (.binary "!=" x y)
        ∧ evalBool k env (againstZero "-" "!=" x y) = some (decide (vx ≠ vy))
        ∧ evalBool k env (.binary "!=" x y) = some (decide (vx ≠ vy)))
    ∧ (rewrite E oddComparisons.xorEq (againstZero "^" "==" x y) = some (.binary "==" x y)
        ∧ evalBool k env (againstZero "^" "==" x y) = some (decide (vx = vy))
        ∧ evalBool k env (.binary "==" x y) = some (decide (vx = vy)))
    ∧ (rewrite E oddComparisons.xorNe (againstZero "^" "!=" x y) = some (.binary "!=" x y)
        ∧ evalBool k env (againstZero "^" "!=" x y) = some (decide (vx ≠ vy))
        ∧ evalBool k env (.binary "!=" x y) = some (decide (vx ≠ vy))) := by
  have bx := evalInt_lt k env x vx hx
  have bY := evalInt_lt k env y vy hy
  have hs := goSub_eq_zero k vx vy bx bY
  have hxor := goXor_eq_zero k vx vy bx bY
  have eqc : ∀ d : Nat, goCompare k "==" d 0 = some (decide (d = 0)) := fun _ => rfl
  have nec : ∀ d : Nat, goCompare k "!=" d 0 = some (decide (d ≠ 0)) := fun _ => rfl
  refine ⟨hs, hxor, ⟨rfl, ?_, ?_⟩, ⟨rfl, ?_, ?_⟩, ⟨rfl, ?_, ?_⟩, ⟨rfl, ?_, ?_⟩⟩
  · rw [evalBool_againstZero k env _ _ x y _ (evalInt_sub k env x y vx vy hx hy), eqc]
    simp only [hs]
  · rw [evalBool_compare k env _ x y vx vy hx hy]; rfl
  · rw [evalBool_againstZero k env _ _ x y _ (evalInt_sub k env x y vx vy hx hy), nec]
    simp only [ne_eq, hs]
  · rw [evalBool_compare k env _ x y vx vy hx hy]; rfl
  · rw [evalBool_againstZero k env _ _ x y _ (evalInt_xor k env x y vx vy hx hy), eqc]
    simp only [hxor]
  · rw [evalBool_compare k env _ x y vx vy hx hy]; rfl
  · rw [evalBool_againstZero k env _ _ x y _ (evalInt_xor k env x y vx vy hx hy), nec]
    simp only [ne_eq, hxor]
  · rw [evalBool_compare k env _ x y vx vy hx hy]; rfl

/-- C10: for every integer type and all operands `x`, `y` with values `vx`,
`vy` whose exact difference is a value of the type, each ordering rule of
`oddComparisons` rewrites its snippet to one with the same truth value:
`x - y < 0` and `y > x`, `x - y <= 0` and `y >= x`, `x - y > 0` and `x > y`,
`x - y >= 0` and `x >= y`. -/
theorem ordering_rewrites_preserve_truth (E : Engine) (k : IntType) (env : String → Nat)
    (x y : Node) (vx vy : Nat)
    (hx : evalInt k env x = some vx) (hy : evalInt k env y = some vy)
    (hd : k.represents (k.value vx - k.value vy)) :
    (rewrite E oddComparisons.subLt (againstZero "-" "<" x y) = some (.binary ">" y x)
        ∧ evalBool k env (againstZero "-" "<" x y) = some (decide (k.value vy > k.value vx))
        ∧ evalBool k env (.binary ">" y x) = some (decide (k.value vy > k.value vx)))
    ∧ (rewrite E oddComparisons.subLe (againstZero "-" "<=" x y) = some (.binary ">=" y x)
        ∧ evalBool k env (againstZero "-" "<=" x y) = some (decide (k.value vy ≥ k.value vx))
        ∧ evalBool k env (.binary ">=" y x) = some (decide (k.value vy ≥ k.value vx)))
    ∧ (rewrite E oddComparisons.subGt (againstZero "-" ">" x y) = some (.binary ">" x y)
        ∧ evalBool k env (againstZero "-" ">" x y) = some (decide (k.value vx > k.value vy))
        ∧ evalBool k env (.binary ">" x y) = some (decide (k.value vx > k.value vy)))
    ∧ (rewrite E oddComparisons.subGe (againstZero "-" ">=" x y) = some (.binary ">=" x y)
        ∧ evalBool k env (againstZero "-" ">=" x y) = some (decide (k.value vx ≥ k.value vy))
        ∧ evalBool k env (.binary ">=" x y) = some (decide (k.value vx ≥ k.value vy))) := by
  have bx := evalInt_lt k env x vx hx
  have bY := evalInt_lt k env y vy hy
  have hv := value_goSub k vx vy bx bY hd
  have hz := value_zero k
  have hsub := evalInt_sub k env x y vx vy hx hy
  have ltc : ∀ d : Nat, goCompare k "<" d 0 = some (decide (k.value d < k.value 0)) :=
    fun _ => rfl
  have lec : ∀ d : Nat, goCompare k "<=" d 0 = some (decide (k.value d ≤ k.value 0)) :=
    fun _ => rfl
  have gtc : ∀ d : Nat, goCompare k ">" d 0 = some (decide (k.value d > k.value 0)) :=
    fun _ => rfl
  have gec : ∀ d : Nat, goCompare k ">=" d 0 = some (decide (k.value d ≥ k.value 0)) :=
    fun _ => rfl
  refine ⟨⟨rfl, ?_, ?_⟩, ⟨rfl, ?_, ?_⟩, ⟨rfl, ?_, ?_⟩, ⟨rfl, ?_, ?_⟩⟩
  · rw [evalBool_againstZero k env _ _ x y _ hsub, ltc, hv, hz]
    congr 1; apply decide_eq_decide.mpr; omega
  · rw [evalBool_compare k env _ y x vy vx hy hx]; rfl
  · rw [evalBool_againstZero k env _ _ x y _ hsub, lec, hv, hz]
    congr 1; apply decide_eq_decide.mpr; omega
  · rw [evalBool_compare k env _ y x vy vx hy hx]; rfl
  · rw [evalBool_againstZero k env _ _ x y _ hsub, gtc, hv, hz]
    congr 1; apply decide_eq_decide.mpr; omega
  · rw [evalBool_compare k env _ x y vx vy hx hy]; rfl
  · rw [evalBool_againstZero k env _ _ x y _ hsub, gec, hv, hz]
    congr 1; apply decide_eq_decide.mpr; omega
  · rw [evalBool_compare k env _ x y vx vy hx hy]; rfl


/-! ## When a suggestion is matched again -/

theorem evalRule_of_no_match (E : Engine) (r : Rule) (t : Node) (h : firstMatch r t = none) :
    evalRule E r t = none := by
  simp only [evalRule, occurrence, h, Option.map_none', Option.none_bind]

/-- What a literal pattern matches. -/
theorem matchNode_lit_some (s : String) (t : Node) (b b2 : Bindings)
    (h : matchNode (.lit s) t b = some b2) : t = .lit s := by
  cases t with
  | lit s2 =>
    by_cases e : s = s2
    · rw [e]
    · have h2 : matchNode (.lit s) (.lit s2) b = if s = s2 then some b else none := rfl
      rw [h2, if_neg e] at h
      cases h
  | _ => cases h

/-- What a binary pattern matches. -/
theorem matchNode_binary_some (o : String) (pl pr t : Node) (b b2 : Bindings)
    (h : matchNode (.binary o pl pr) t b = some b2) :
    ∃ tl tr b1, t = .binary o tl tr ∧ matchNode pl tl b = some b1
      ∧ matchNode pr tr b1 = some b2 := by
  cases t with
  | binary o2 tl tr =>
    have h2 : matchNode (.binary o pl pr) (.binary o2 tl tr) b
        = if o = o2 then (matchNode pl tl b).bind (matchNode pr tr) else none := rfl
    rw [h2] at h
    by_cases e : o = o2
    · rw [if_pos e] at h
      cases h1 : matchNode pl tl b with
      | none => rw [h1] at h; cases h
      | some b1 => rw [h1] at h; exact ⟨tl, tr, b1, by rw [e], h1, h⟩
    · rw [if_neg e] at h; cases h
  | _ => cases h

/-- The snippets the patterns of `oddComparisons` match. -/
theorem zeroCmp_matches (arith cmp : String) (t : Node) (b : Bindings)
    (h : matchNode (zeroCmp arith cmp) t [] = some b) :
    ∃ x y, t = againstZero arith cmp x y := by
  obtain ⟨tl, tr, b1, rfl, hl, hr⟩ := matchNode_binary_some _ _ _ _ _ _ h
  obtain ⟨x, y, b2, rfl, _, _⟩ := matchNode_binary_some _ _ _ _ _ _ hl
  rw [matchNode_lit_some _ _ _ _ hr]
  exact ⟨x, y, rfl⟩

/-- A rule of `oddComparisons` is matched again by its own suggestion only
when the suggestion has the shape of its pattern. -/
theorem oddRule_refires (E : Engine) (src fixSrc arith cmp : String) (fix t : Node)
    (h : evalRule E (oddRule ⟨src, zeroCmp arith cmp⟩ ⟨fixSrc, fix⟩) t ≠ none) :
    ∃ x y, t = againstZero arith cmp x y := by
  cases hm : firstMatch (oddRule ⟨src, zeroCmp arith cmp⟩ ⟨fixSrc, fix⟩) t with
  | none => exact absurd (evalRule_of_no_match E _ _ hm) h
  | some b =>
    rw [firstMatch_single _ ⟨src, zeroCmp arith cmp⟩ _ rfl] at hm
    exact zeroCmp_matches arith cmp t b hm


/-- A suggestion `x cmp y` that is not of the shape `u arith v cmp 0` is not
matched by the rule for that shape. -/
theorem oddRule_fix_quiet (E : Engine) (src fixSrc arith cmp : String) (fix x y : Node)
    (h : ¬ ((∃ u v, x = .binary arith u v) ∧ y = .lit "0")) :
    evalRule E (oddRule ⟨src, zeroCmp arith cmp⟩ ⟨fixSrc, fix⟩) (.binary cmp x y) = none := by
  by_contra hne
  obtain ⟨u, v, e⟩ := oddRule_refires E src fixSrc arith cmp fix _ hne
  simp only [againstZero, Node.binary.injEq, true_and] at e
  exact h ⟨⟨u, v, e.1⟩, e.2⟩

/-- What an identifier pattern matches. -/
theorem matchNode_ident_some (f : String) (t : Node) (b b2 : Bindings)
    (h : matchNode (.ident f) t b = some b2) : t = .ident f := by
  cases t with
  | ident g =>
    by_cases e : f = g
    · rw [e]
    · have h2 : matchNode (.ident f) (.ident g) b = if f = g then some b else none := rfl
      rw [h2, if_neg e] at h
      cases h
  | _ => cases h

/-- What a slice-type pattern matches. -/
theorem matchNode_sliceType_some (p t : Node) (b b2 : Bindings)
    (h : matchNode (.sliceType p) t b = some b2) :
    ∃ e, t = .sliceType e ∧ matchNode p e b = some b2 := by
  cases t with
  | sliceType e => exact ⟨e, rfl, h⟩
  | _ => cases h

/-- What the pattern `f($v)` of a conversion matches. -/
theorem matchNode_conversion_some (pf : Node) (v : String) (t : Node) (b0 b : Bindings)
    (h : matchNode (.call pf [.mvar v]) t b0 = some b) :
    ∃ fn c b1, t = .call fn [c] ∧ matchNode pf fn b0 = some b1 := by
  cases t with
  | call fn args =>
    have h2 : matchNode (.call pf [.mvar v]) (.call fn args) b0
        = (matchNode pf fn b0).bind (matchList [.mvar v] args) := rfl
    rw [h2] at h
    cases hm : matchNode pf fn b0 with
    | none => rw [hm] at h; cases h
    | some b1 =>
      rw [hm] at h
      cases args with
      | nil => cases h
      | cons c rest =>
        cases rest with
        | nil => exact ⟨fn, c, b1, rfl, hm⟩
        | cons c2 rest2 =>
          have h3 : (some b1).bind (matchList [.mvar v] (c :: c2 :: rest2))
              = (bindOne v c b1).bind (matchList [] (c2 :: rest2)) := rfl
          rw [h3] at h
          cases hb : bindOne v c b1 with
          | none => rw [hb] at h; cases h
          | some b2 => rw [hb] at h; cases h
  | _ => cases h

/-- The snippets `len(e)` the pattern `len(f($v))` matches. -/
theorem lenOf_conversion_matches (pf : Node) (v : String) (e : Node) (b : Bindings)
    (h : matchNode (lenOf (.call pf [.mvar v])) (lenOf e) [] = some b) :
    ∃ fn c b1, e = .call fn [c] ∧ matchNode pf fn [] = some b1 := by
  have h2 : matchNode (lenOf (.call pf [.mvar v])) (lenOf e) []
      = (matchNode (.call pf [.mvar v]) e []).bind (matchList [] []) := rfl
  rw [h2] at h
  cases hm : matchNode (.call pf [.mvar v]) e [] with
  | none => rw [hm] at h; cases h
  | some b1 => exact matchNode_conversion_some pf v e [] b1 hm

/-- A guard on the underlying type of one bound node. -/
theorem passes_typeUnderlyingIs (E : Engine) (v ty : String) (b : Bindings) (n : Node)
    (d : Option Diagnostic) (f : Option Node) (h : lookupOne b v = some n) :
    Occurrence.passes E ⟨.typeUnderlyingIs v ty, b, d, f⟩ = hasUnderlying E n ty := by
  simp only [Occurrence.passes, evalFilter, h, hasUnderlying, Option.some_bind]
  cases E.typeOf n with
  | none => rfl
  | some t => simp only [Option.map_some']; cases (t.underlying == ty) <;> rfl

/-- The rule of `lenStrByteSlice` on `len(string(c))`. -/
theorem lenStrByteSlice_fires (E : Engine) (c : Node) :
    (evalRule E lenStrByteSlice.rule (lenOf (.call (.ident "string") [c]))).isSome
        = hasUnderlying E c "[]byte"
    ∧ rewrite E lenStrByteSlice.rule (lenOf (.call (.ident "string") [c]))
        = if hasUnderlying E c "[]byte" then some (lenOf c) else none := by
  have h : occurrence lenStrByteSlice.rule (lenOf (.call (.ident "string") [c]))
      = some ⟨.typeUnderlyingIs "b" "[]byte", [("b", .one c)],
          some ⟨"Call len() on the byte slice instead of converting to a string first",
            some (String.mk ("len(".data ++ (render c ++ ")".data))),
            lenOf (.call (.ident "string") [c])⟩,
          some (lenOf c)⟩ := rfl
  have g : lookupOne [("b", Capture.one c)] "b" = some c := rfl
  refine ⟨?_, ?_⟩
  · rw [evalRule_of_occurrence E _ _ _ h, Occurrence.emit,
      passes_typeUnderlyingIs E _ _ _ c _ _ g]
    cases hasUnderlying E c "[]byte" <;> rfl
  · simp only [rewrite, h, Option.some_bind, passes_typeUnderlyingIs E _ _ _ c _ _ g]

/-- The rule of `lenByteSliceStr` on `len([]byte(c))`. -/
theorem lenByteSliceStr_fires (E : Engine) (c : Node) :
    (evalRule E lenByteSliceStr.rule (lenOf (.call (.sliceType (.ident "byte")) [c]))).isSome
        = hasUnderlying E c "string"
    ∧ rewrite E lenByteSliceStr.rule (lenOf (.call (.sliceType (.ident "byte")) [c]))
        = if hasUnderlying E c "string" then some (lenOf c) else none := by
  have h : occurrence lenByteSliceStr.rule (lenOf (.call (.sliceType (.ident "byte")) [c]))
      = some ⟨.typeUnderlyingIs "s" "string", [("s", .one c)],
          some ⟨"Call len() on the string instead of converting to []byte first.",
            some (String.mk ("len(".data ++ (render c ++ ")".data))),
            lenOf (.call (.sliceType (.ident "byte")) [c])⟩,
          some (lenOf c)⟩ := rfl
  have g : lookupOne [("s", Capture.one c)] "s" = some c := rfl
  refine ⟨?_, ?_⟩
  · rw [evalRule_of_occurrence E _ _ _ h, Occurrence.emit,
      passes_typeUnderlyingIs E _ _ _ c _ _ g]
    cases hasUnderlying E c "string" <;> rfl
  · simp only [rewrite, h, Option.some_bind, passes_typeUnderlyingIs E _ _ _ c _ _ g]

/-- When `len(e)` is matched by the rule of `lenStrByteSlice`. -/
theorem lenStrByteSlice_quiet_iff (E : Engine) (e : Node) :
    evalRule E lenStrByteSlice.rule (lenOf e) = none
      ↔ ¬ ∃ c, e = .call (.ident "string") [c] ∧ hasUnderlying E c "[]byte" = true := by
  constructor
  · rintro h ⟨c, rfl, hc⟩
    have := (lenStrByteSlice_fires E c).1
    rw [h, hc] at this
    cases this
  · intro h
    by_contra hne
    cases hm : firstMatch lenStrByteSlice.rule (lenOf e) with
    | none => exact hne (evalRule_of_no_match E _ _ hm)
    | some b =>
      rw [firstMatch_single _ ⟨"len(string($b))", lenOf (.call (.ident "string") [.mvar "b"])⟩ _ rfl]
        at hm
      obtain ⟨fn, c, b1, rfl, hf⟩ := lenOf_conversion_matches _ _ _ _ hm
      rw [matchNode_ident_some _ _ _ _ hf] at hne h
      have hs := (lenStrByteSlice_fires E c).1
      cases hu : hasUnderlying E c "[]byte" with
      | true => exact h ⟨c, rfl, hu⟩
      | false =>
        rw [hu] at hs
        cases he : evalRule E lenStrByteSlice.rule (lenOf (.call (.ident "string") [c])) with
        | none => exact hne he
        | some d => rw [he] at hs; cases hs

/-- When `len(e)` is matched by the rule of `lenByteSliceStr`. -/
theorem lenByteSliceStr_quiet_iff (E : Engine) (e : Node) :
    evalRule E lenByteSliceStr.rule (lenOf e) = none
      ↔ ¬ ∃ c, e = .call (.sliceType (.ident "byte")) [c] ∧ hasUnderlying E c "string" = true := by
  constructor
  · rintro h ⟨c, rfl, hc⟩
    have := (lenByteSliceStr_fires E c).1
    rw [h, hc] at this
    cases this
  · intro h
    by_contra hne
    cases hm : firstMatch lenByteSliceStr.rule (lenOf e) with
    | none => exact hne (evalRule_of_no_match E _ _ hm)
    | some b =>
      rw [firstMatch_single _
        ⟨"len([]byte($s))", lenOf (.call (.sliceType (.ident "byte")) [.mvar "s"])⟩ _ rfl] at hm
      obtain ⟨fn, c, b1, rfl, hf⟩ := lenOf_conversion_matches _ _ _ _ hm
      obtain ⟨el, rfl, hel⟩ := matchNode_sliceType_some _ _ _ _ hf
      rw [matchNode_ident_some _ _ _ _ hel] at hne h
      have hs := (lenByteSliceStr_fires E c).1
      cases hu : hasUnderlying E c "string" with
      | true => exact h ⟨c, rfl, hu⟩
      | false =>
        rw [hu] at hs
        cases he : evalRule E lenByteSliceStr.rule
            (lenOf (.call (.sliceType (.ident "byte")) [c])) with
        | none => exact hne he
        | some d => rw [he] at hs; cases hs

/-- A suggestion `x cmp y` whose left operand is not of the rule's arithmetic
shape, or whose right operand is not a literal, is not matched again. -/
theorem oddRule_fix_quiet_of_shape (E : Engine) (src fixSrc arith cmp : String)
    (fix x y : Node) (h : ¬ ((∃ u v, x = .binary arith u v) ∧ ∃ l, y = .lit l)) :
    evalRule E (oddRule ⟨src, zeroCmp arith cmp⟩ ⟨fixSrc, fix⟩) (.binary cmp x y) = none :=
  oddRule_fix_quiet E src fixSrc arith cmp fix x y (fun hxy => h ⟨hxy.1, "0", hxy.2⟩)

/-- C2 (as amended): the snippet a suggestion produces is not matched again
by the same rule, except in one case.  The `<` and `<=` rules of `x - y` are
never matched again by their suggestion, and neither are `lenStrByteSlice` and
`lenByteSliceStr` (a conversion has the type it converts to, so the argument
that passed the type guard is not itself such a conversion).  The `==`, `!=`,
`>` and `>=` rules of `x - y` and the two rules of `x ^ y` are not matched
again unless `x` is itself a subtraction (an exclusive or) and `y` is a
literal; when `x` is a subtraction (an exclusive or) and `y` is the literal
`0`, the rule does match its own suggestion. -/
theorem suggestion_not_rematched (E : Engine) (hE : E.typesConversions) (x y b s : Node) :
    (rewrite E oddComparisons.subEq (againstZero "-" "==" x y) = some (.binary "==" x y)
      ∧ (¬ ((∃ u v, x = .binary "-" u v) ∧ ∃ l, y = .lit l) →
          evalRule E oddComparisons.subEq (.binary "==" x y) = none)
      ∧ ∀ u v, (evalRule E oddComparisons.subEq
          (.binary "==" (.binary "-" u v) (.lit "0"))).isSome = true)
    ∧ (rewrite E oddComparisons.subNe (againstZero "-" "!=" x y) = some (.binary "!=" x y)
      ∧ (¬ ((∃ u v, x = .binary "-" u v) ∧ ∃ l, y = .lit l) →
          evalRule E oddComparisons.subNe (.binary "!=" x y) = none)
      ∧ ∀ u v, (evalRule E oddComparisons.subNe
          (.binary "!=" (.binary "-" u v) (.lit "0"))).isSome = true)
    ∧ (rewrite E oddComparisons.subGt (againstZero "-" ">" x y) = some (.binary ">" x y)
      ∧ (¬ ((∃ u v, x = .binary "-" u v) ∧ ∃ l, y = .lit l) →
          evalRule E oddComparisons.subGt (.binary ">" x y) = none)
      ∧ ∀ u v, (evalRule E oddComparisons.subGt
          (.binary ">" (.binary "-" u v) (.lit "0"))).isSome = true)
    ∧ (rewrite E oddComparisons.subGe (againstZero "-" ">=" x y) = some (.binary ">=" x y)
      ∧ (¬ ((∃ u v, x = .binary "-" u v) ∧ ∃ l, y = .lit l) →
          evalRule E oddComparisons.subGe (.binary ">=" x y) = none)
      ∧ ∀ u v, (evalRule E oddComparisons.subGe
          (.binary ">=" (.binary "-" u v) (.lit "0"))).isSome = true)
    ∧ (rewrite E oddComparisons.xorEq (againstZero "^" "==" x y) = some (.binary "==" x y)
      ∧ (¬ ((∃ u v, x = .binary "^" u v) ∧ ∃ l, y = .lit l) →
          evalRule E oddComparisons.xorEq (.binary "==" x y) = none)
      ∧ ∀ u v, (evalRule E oddComparisons.xorEq
          (.binary "==" (.binary "^" u v) (.lit "0"))).isSome = true)
    ∧ (rewrite E oddComparisons.xorNe (againstZero "^" "!=" x y) = some (.binary "!=" x y)
      ∧ (¬ ((∃ u v, x = .binary "^" u v) ∧ ∃ l, y = .lit l) →
          evalRule E oddComparisons.xorNe (.binary "!=" x y) = none)
      ∧ ∀ u v, (evalRule E oddComparisons.xorNe
          (.binary "!=" (.binary "^" u v) (.lit "0"))).isSome = true)
    ∧ (rewrite E oddComparisons.subLt (againstZero "-" "<" x y) = some (.binary ">" y x)
      ∧ evalRule E oddComparisons.subLt (.binary ">" y x) = none)
    ∧ (rewrite E oddComparisons.subLe (againstZero "-" "<=" x y) = some (.binary ">=" y x)
      ∧ evalRule E oddComparisons.subLe (.binary ">=" y x) = none)
    ∧ (rewrite E lenStrByteSlice.rule (lenOf (.call (.ident "string") [b]))
          = (if hasUnderlying E b "[]byte" then some (lenOf b) else none)
      ∧ (hasUnderlying E b "[]byte" = true →
          evalRule E lenStrByteSlice.rule (lenOf b) = none))
    ∧ (rewrite E lenByteSliceStr.rule (lenOf (.call (.sliceType (.ident "byte")) [s]))
          = (if hasUnderlying E s "string" then some (lenOf s) else none)
      ∧ (hasUnderlying E s "string" = true →
          evalRule E lenByteSliceStr.rule (lenOf s) = none)) := by
  refine ⟨⟨rfl, ?_, fun _ _ => rfl⟩, ⟨rfl, ?_, fun _ _ => rfl⟩, ⟨rfl, ?_, fun _ _ => rfl⟩,
    ⟨rfl, ?_, fun _ _ => rfl⟩, ⟨rfl, ?_, fun _ _ => rfl⟩, ⟨rfl, ?_, fun _ _ => rfl⟩,
    ⟨rfl, rfl⟩, ⟨rfl, rfl⟩,
    ⟨(lenStrByteSlice_fires E b).2, ?_⟩, ⟨(lenByteSliceStr_fires E s).2, ?_⟩⟩
  · exact oddRule_fix_quiet_of_shape E _ _ _ _ _ x y
  · exact oddRule_fix_quiet_of_shape E _ _ _ _ _ x y
  · exact oddRule_fix_quiet_of_shape E _ _ _ _ _ x y
  · exact oddRule_fix_quiet_of_shape E _ _ _ _ _ x y
  · exact oddRule_fix_quiet_of_shape E _ _ _ _ _ x y
  · exact oddRule_fix_quiet_of_shape E _ _ _ _ _ x y
  · intro hb
    refine (lenStrByteSlice_quiet_iff E b).mpr ?_
    rintro ⟨c, rfl, _⟩
    rw [hE.1 c] at hb
    cases hb
  · intro hs
    refine (lenByteSliceStr_quiet_iff E s).mpr ?_
    rintro ⟨c, rfl, _⟩
    rw [hE.2 c] at hs
    cases hs

/-- C2 in a scope with `var b []byte` and `var s string`: `len(string(b))`
rewrites to `len(b)` and `len([]byte(s))` to `len(s)`, neither of which the
rule matches again; `a - b == 0` rewrites to `a == b`, which is not matched
again either. -/
theorem suggestion_not_rematched_witness :
    convScope.typesConversions
    ∧ hasUnderlying convScope (.ident "b") "[]byte" = true
    ∧ rewrite convScope lenStrByteSlice.rule (lenOf (.call (.ident "string") [.ident "b"]))
        = some (lenOf (.ident "b"))
    ∧ evalRule convScope lenStrByteSlice.rule (lenOf (.ident "b")) = none
    ∧ hasUnderlying convScope (.ident "s") "string" = true
    ∧ rewrite convScope lenByteSliceStr.rule
          (lenOf (.call (.sliceType (.ident "byte")) [.ident "s"]))
        = some (lenOf (.ident "s"))
    ∧ evalRule convScope lenByteSliceStr.rule (lenOf (.ident "s")) = none
    ∧ ¬ ((∃ u v, Node.ident "a" = .binary "-" u v) ∧ ∃ l, Node.ident "b" = .lit l)
    ∧ evalRule convScope oddComparisons.subEq (.binary "==" (.ident "a") (.ident "b")) = none :=
  have hE : convScope.typesConversions := ⟨fun _ => rfl, fun _ => rfl⟩
  have hq : ¬ ((∃ u v, Node.ident "a" = .binary "-" u v) ∧ ∃ l, Node.ident "b" = .lit l) :=
    fun h => by
      obtain ⟨⟨u, v, e⟩, _⟩ := h
      cases e
  ⟨hE, rfl, rfl,
   (suggestion_not_rematched convScope hE (.ident "a") (.ident "b") (.ident "b")
      (.ident "s")).2.2.2.2.2.2.2.2.1.2 rfl,
   rfl, rfl,
   (suggestion_not_rematched convScope hE (.ident "a") (.ident "b") (.ident "b")
      (.ident "s")).2.2.2.2.2.2.2.2.2.2 rfl,
   hq,
   (suggestion_not_rematched convScope hE (.ident "a") (.ident "b") (.ident "b")
      (.ident "s")).1.2.1 hq⟩

/-- C2 (counterexample): the rule for `$x - $y == 0` matches `a - b - 0 == 0`
with `x` bound to `a - b` and `y` to `0`; its suggestion expands to
`a - b == 0`, which the same rule matches again (suggesting `a == b`). -/
theorem oddComparisons_fix_not_idempotent :
    (againstZero "-" "==" (.binary "-" (.ident "a") (.ident "b")) (.lit "0")).text
        = "a - b - 0 == 0"
    ∧ evalRule untyped oddComparisons.subEq
          (againstZero "-" "==" (.binary "-" (.ident "a") (.ident "b")) (.lit "0"))
        = some (oddDiag
            (againstZero "-" "==" (.binary "-" (.ident "a") (.ident "b")) (.lit "0"))
            "a - b == 0")
    ∧ rewrite untyped oddComparisons.subEq
          (againstZero "-" "==" (.binary "-" (.ident "a") (.ident "b")) (.lit "0"))
        = some (againstZero "-" "==" (.ident "a") (.ident "b"))
    ∧ (againstZero "-" "==" (.ident "a") (.ident "b")).text = "a - b == 0"
    ∧ evalRule untyped oddComparisons.subEq (againstZero "-" "==" (.ident "a") (.ident "b"))
        = some (oddDiag (againstZero "-" "==" (.ident "a") (.ident "b")) "a == b") :=
  ⟨rfl, rfl, rfl, rfl, rfl⟩


/-! ## A successful match binds the placeholders of the pattern -/

theorem Keeps.refl (b : Bindings) : Keeps b b := fun _ _ h => h

theorem Keeps.trans {a b c : Bindings} (h1 : Keeps a b) (h2 : Keeps b c) : Keeps a c :=
  fun v x h => h2 v x (h1 v x h)

theorem Bound.mono {vs : List String} {b c : Bindings} (h : Bound vs b) (k : Keeps b c) :
    Bound vs c := fun v hv => by
  obtain ⟨n, hn⟩ := h v hv
  exact ⟨n, k v _ hn⟩

theorem Bound.nil (b : Bindings) : Bound [] b := fun _ hv => by cases hv

theorem Bound.append {vs ws : List String} {b : Bindings} (h1 : Bound vs b) (h2 : Bound ws b) :
    Bound (vs ++ ws) b := fun v hv => by
  rcases List.mem_append.mp hv with h | h
  · exact h1 v h
  · exact h2 v h

theorem Sound.pure : Sound some [] := fun b b2 h => by
  cases h
  exact ⟨Keeps.refl b, Bound.nil b⟩

theorem Sound.fail (vs : List String) : Sound (fun _ => none) vs := fun _ _ h => by cases h

theorem Sound.bind {f g : Bindings → Option Bindings} {vs ws : List String}
    (hf : Sound f vs) (hg : Sound g ws) : Sound (fun b => (f b).bind g) (vs ++ ws) := by
  intro b b2 h
  cases h1 : f b with
  | none => simp only [h1, Option.none_bind] at h; cases h
  | some b1 =>
    simp only [h1, Option.some_bind] at h
    obtain ⟨k1, v1⟩ := hf b b1 h1
    obtain ⟨k2, v2⟩ := hg b1 b2 h
    exact ⟨k1.trans k2, (v1.mono k2).append v2⟩

theorem Sound.guarded {f : Bindings → Option Bindings} {vs : List String} (c : Prop)
    [Decidable c] (hf : Sound f vs) : Sound (fun b => if c then f b else none) vs := by
  intro b b2 h
  by_cases hc : c
  · simp only [hc, if_true] at h; exact hf b b2 h
  · simp only [hc, if_false] at h; cases h

theorem Sound.weaken {f : Bindings → Option Bindings} {vs : List String} (hf : Sound f vs) :
    Sound f [] := fun b b2 h => ⟨(hf b b2 h).1, Bound.nil b2⟩

theorem lookup_cons_self (v : String) (c : Capture) (b : Bindings) :
    List.lookup v ((v, c) :: b) = some c := by
  simp [List.lookup]

theorem lookup_cons_keeps (v : String) (c : Capture) (b : Bindings)
    (h : b.lookup v = none) : Keeps b ((v, c) :: b) := by
  intro w x hw
  by_cases e : w = v
  · subst e; rw [h] at hw; cases hw
  · have : (w == v) = false := by simpa using e
    simp only [List.lookup, this]
    exact hw

theorem Sound.bindOne (v : String) (t : Node) :
    Sound (bindOne v t) (if v = "_" then [] else [v]) := by
  intro b b2 h
  unfold PotetoLint.bindOne at h
  by_cases hv : v = "_"
  · simp only [hv, if_true] at h ⊢
    cases h
    exact ⟨Keeps.refl b, Bound.nil b⟩
  · simp only [hv, if_false] at h ⊢
    cases hl : b.lookup v with
    | none =>
      simp only [hl] at h
      cases h
      refine ⟨lookup_cons_keeps v _ b hl, fun w hw => ?_⟩
      rw [List.mem_singleton.mp hw]
      exact ⟨t, lookup_cons_self v _ b⟩
    | some c =>
      cases c with
      | one t0 =>
        simp only [hl] at h
        by_cases hs : Node.same t0 t = true
        · simp only [hs, if_true] at h
          cases h
          refine ⟨Keeps.refl b, fun w hw => ?_⟩
          rw [List.mem_singleton.mp hw]
          exact ⟨t0, hl⟩
        · simp only [hs, if_false] at h; cases h
      | many ts => simp only [hl] at h; cases h

theorem Sound.bindMany (v : String) (ts : List Node) : Sound (bindMany v ts) [] := by
  intro b b2 h
  refine ⟨?_, Bound.nil b2⟩
  unfold PotetoLint.bindMany at h
  by_cases hv : v = "_"
  · simp only [hv, if_true] at h
    cases h
    exact Keeps.refl b
  · simp only [hv, if_false] at h
    cases hl : b.lookup v with
    | none =>
      simp only [hl] at h
      cases h
      exact lookup_cons_keeps v _ b hl
    | some c =>
      cases c with
      | one t0 => simp only [hl] at h; cases h
      | many ts0 =>
        simp only [hl] at h
        by_cases hs : Node.sameList ts0 ts = true
        · simp only [hs, if_true] at h
          cases h
          exact Keeps.refl b
        · simp only [hs, if_false] at h; cases h

theorem Sound.first {F : Nat → Bindings → Option Bindings} {vs : List String} (l : List Nat)
    (hF : ∀ k, Sound (F k) vs) : Sound (fun b => l.findSome? fun k => F k b) vs := by
  intro b b2 h
  obtain ⟨k, _, hk⟩ := List.exists_of_findSome?_eq_some h
  exact hF k b b2 hk

/-- Matching a list whose first pattern is not variadic. -/
theorem matchList_cons_eq (p : Node) (ps ts : List Node) (b : Bindings)
    (hp : ∀ v, p ≠ .mvarList v) :
    matchList (p :: ps) ts b
      = match ts with
        | [] => none
        | t :: rest => (matchNode p t b).bind (matchList ps rest) := by
  cases p <;> cases ts <;> first | rfl | exact absurd rfl (hp _)

mutual
/-- A successful match extends the binding set by the placeholders of the
pattern. -/
theorem matchNode_sound : ∀ (p t : Node), Sound (matchNode p t) p.vars
  | .ident _, t => by
      cases t <;> first | exact Sound.fail _ | exact Sound.guarded _ Sound.pure
  | .lit _, t => by
      cases t <;> first | exact Sound.fail _ | exact Sound.guarded _ Sound.pure
  | .mvar v, t => Sound.bindOne v t
  | .mvarList _, _ => Sound.fail _
  | .paren p, t => by
      cases t with
      | paren e => exact matchNode_sound p e
      | _ => exact Sound.fail _
  | .unary _ p, t => by
      cases t with
      | unary _ e => exact Sound.guarded _ (matchNode_sound p e)
      | _ => exact Sound.fail _
  | .binary _ pl pr, t => by
      cases t with
      | binary _ tl tr =>
        exact Sound.guarded _ (Sound.bind (matchNode_sound pl tl) (matchNode_sound pr tr))
      | _ => exact Sound.fail _
  | .sel p _, t => by
      cases t with
      | sel e _ => exact Sound.guarded _ (matchNode_sound p e)
      | _ => exact Sound.fail _
  | .call pf pas, t => by
      cases t with
      | call tf tas => exact Sound.bind (matchNode_sound pf tf) (matchList_sound pas tas)
      | _ => exact Sound.fail _
  | .sliceType p, t => by
      cases t with
      | sliceType e => exact matchNode_sound p e
      | _ => exact Sound.fail _
  | .mapType pk pv, t => by
      cases t with
      | mapType tk tv => exact Sound.bind (matchNode_sound pk tk) (matchNode_sound pv tv)
      | _ => exact Sound.fail _
  | .field _ p, t => by
      cases t with
      | field _ e => exact Sound.guarded _ (matchNode_sound p e)
      | _ => exact Sound.fail _
  | .structType pfs, t => by
      cases t with
      | structType tfs => exact matchList_sound pfs tfs
      | _ => exact Sound.fail _
  | .exprStmt p, t => by
      cases t with
      | exprStmt e => exact matchNode_sound p e
      | _ => exact Sound.fail _
  | .deferStmt p, t => by
      cases t with
      | deferStmt e => exact matchNode_sound p e
      | _ => exact Sound.fail _
  | .assign _ pl pr, t => by
      cases t with
      | assign _ tl tr =>
        exact Sound.guarded _ (Sound.bind (matchNode_sound pl tl) (matchNode_sound pr tr))
      | _ => exact Sound.fail _
  | .ret ps, t => by
      cases t with
      | ret ts => exact matchList_sound ps ts
      | _ => exact Sound.fail _
  | .ifStmt pc pb, t => by
      cases t with
      | ifStmt tc tb => exact Sound.bind (matchNode_sound pc tc) (matchList_sound pb tb)
      | _ => exact Sound.fail _
  | .typeDecl pn pt, t => by
      cases t with
      | typeDecl tn tt => exact Sound.bind (matchNode_sound pn tn) (matchNode_sound pt tt)
      | _ => exact Sound.fail _
  | .funcDecl pn pp pr pb, t => by
      cases t with
      | funcDecl tn tp tr tb =>
        exact Sound.bind (Sound.bind (Sound.bind (matchNode_sound pn tn) (matchList_sound pp tp))
          (matchList_sound pr tr)) (matchList_sound pb tb)
      | _ => exact Sound.fail _
  | .seq ps, t => by
      cases t with
      | seq ts => exact matchList_sound ps ts
      | _ => exact Sound.fail _
/-- A successful match of a list extends the binding set by the placeholders
of the patterns. -/
theorem matchList_sound : ∀ (ps ts : List Node), Sound (matchList ps ts) (Node.varsList ps)
  | [], ts => by
      cases ts with
      | nil => exact Sound.pure
      | cons _ _ => exact Sound.fail _
  | p :: ps, ts => by
      by_cases hp : ∃ v, p = .mvarList v
      · obtain ⟨v, rfl⟩ := hp
        intro b b2 h
        have h2 : matchList (.mvarList v :: ps) ts b
            = (List.range (ts.length + 1)).findSome? fun k =>
                (bindMany v (ts.take k) b).bind (matchList ps (ts.drop k)) := by
          cases ts <;> rfl
        rw [h2] at h
        exact Sound.first (F := fun k b => (bindMany v (ts.take k) b).bind (matchList ps (ts.drop k)))
          _ (fun k => Sound.bind (Sound.bindMany v (ts.take k)) (matchList_sound ps (ts.drop k)))
          b b2 h
      · intro b b2 h
        rw [matchList_cons_eq p ps ts b (fun v e => hp ⟨v, e⟩)] at h
        cases ts with
        | nil => cases h
        | cons t rest =>
          exact Sound.bind (matchNode_sound p t) (matchList_sound ps rest) b b2 h
end


/-- C7: for every rule of the catalog, every named placeholder its guard,
message, suggestion or location override refers to occurs in each of the
rule's patterns; hence, after a successful structural match of the rule,
every such placeholder is bound to a captured node. -/
theorem rules_placeholders_bound :
    rules.all Rule.wellFormed = true
    ∧ ∀ r ∈ rules, ∀ (t : Node) (b : Bindings), firstMatch r t = some b →
        ∀ v ∈ r.referenced, (lookupOne b v).isSome = true := by
  have hall : rules.all Rule.treesBind = true := by decide
  refine ⟨by decide, fun r hr t b hm v hv => ?_⟩
  have hr2 := List.all_eq_true.mp hall r hr
  obtain ⟨p, hp, hpm⟩ := List.exists_of_findSome?_eq_some hm
  have hvp : v ∈ p.tree.vars := by
    have h1 := List.all_eq_true.mp hr2 v hv
    have h2 := List.all_eq_true.mp h1 p hp
    simpa using h2
  obtain ⟨n, hn⟩ := (matchNode_sound p.tree t [] b hpm).2 v hvp
  simp [lookupOne, hn]

/-- C7 at the rule for `$mu1.Lock(); defer $mu2.Lock()`, whose message refers
to `$mu1`: after its match on `mu.Lock(); defer mu.Lock()`, `$mu1` is bound. -/
theorem rules_placeholders_bound_witness :
    firstMatch badLock.lockDeferLock
        (.seq [lockStmt (.ident "mu") "Lock", deferLock (.ident "mu") "Lock"])
      = some [("mu2", .one (.ident "mu")), ("mu1", .one (.ident "mu"))]
    ∧ "mu1" ∈ badLock.lockDeferLock.referenced
    ∧ (lookupOne [("mu2", .one (.ident "mu")), ("mu1", .one (.ident "mu"))] "mu1").isSome = true :=
  ⟨rfl, by decide,
   rules_placeholders_bound.2 badLock.lockDeferLock (by simp [rules, badLock])
     (.seq [lockStmt (.ident "mu") "Lock", deferLock (.ident "mu") "Lock"]) _ rfl "mu1"
     (by decide)⟩

/-- C9 on `int8` with `a = 3` and `b = 250`: `a - b == 0` and `a == b` are
both false. -/
theorem equality_rewrites_preserve_truth_witness :
    evalInt int8 sampleEnv (.ident "a") = some 3
    ∧ evalInt int8 sampleEnv (.ident "b") = some 250
    ∧ evalBool int8 sampleEnv (againstZero "-" "==" (.ident "a") (.ident "b")) = some false
    ∧ evalBool int8 sampleEnv (.binary "==" (.ident "a") (.ident "b")) = some false :=
  ⟨rfl, rfl,
   (equality_rewrites_preserve_truth untyped int8 sampleEnv (.ident "a") (.ident "b") 3 250
      rfl rfl).2.2.1.2.1,
   (equality_rewrites_preserve_truth untyped int8 sampleEnv (.ident "a") (.ident "b") 3 250
      rfl rfl).2.2.1.2.2⟩

/-- C10 on `int8` with `a = 3` and `b = 250` (that is `-6`): the difference
`9` is a value of the type, and `a - b < 0` and `b > a` are both false. -/
theorem ordering_rewrites_preserve_truth_witness :
    evalInt int8 sampleEnv (.ident "a") = some 3
    ∧ evalInt int8 sampleEnv (.ident "b") = some 250
    ∧ int8.represents (int8.value 3 - int8.value 250)
    ∧ evalBool int8 sampleEnv (againstZero "-" "<" (.ident "a") (.ident "b")) = some false
    ∧ evalBool int8 sampleEnv (.binary ">" (.ident "b") (.ident "a")) = some false :=
  ⟨rfl, rfl, by decide,
   (ordering_rewrites_preserve_truth untyped int8 sampleEnv (.ident "a") (.ident "b") 3 250
      rfl rfl (by decide)).1.2.1,
   (ordering_rewrites_preserve_truth untyped int8 sampleEnv (.ident "a") (.ident "b") 3 250
      rfl rfl (by decide)).1.2.2⟩

end PotetoLint
